import Mathlib

/-! # qdu-rm-ai: detection decoding and non-maximum suppression

A shallow embedding of `src/vision/detector/trt_detector.cpp`
(`IOU`, `NonMaxSuppression`, `TrtDetector::PostProcess`), of `Detect` in
`guidinglight_detector.cpp` and `snipe_detector.cpp`, and of the armor
geometry exercised by `apps/tests/vision/armor.cpp`.

Modelling conventions.

* The value of a finite C++ `float` is a rational number (`ℚ`).  The
  arithmetic of `IOU` is embedded twice.  `IOU_f32` and
  `NonMaxSuppression_f32` compute as the program does, in binary32 and
  binary64 with round-to-nearest, ties-to-even, with infinities and NaN.
  `IOU` and `NonMaxSuppression` compute the same expressions without
  rounding; the two agree when no intermediate value is rounded
  (`IOU_f32_of_exact`).  Statements about the value of `IOU` are made of
  `IOU_f32`; the exact version serves statements that only follow the
  control flow of the loops on inputs where it agrees with the program.
* A `std::vector` is a `List`; a vector iterator is a position (an index)
  in the vector, which is what it is in the standard library
  implementations (a pointer into the buffer).  `erase(it)` removes the
  element at that position and shifts the tail one slot to the left; the
  position held by `it` does not change.
* Reading through an iterator that is not inside `[begin, end)` is
  undefined behaviour and has no result in the model.
-/

namespace TRT

/-- Modelled from the spec: the declaration of `TRT::Detection` lives in
`trt_detector.hpp`, which is not among the sources.  The fields are the ones
`trt_detector.cpp` reads and writes (`x_ctr`, `y_ctr`, `w`, `h`, `conf`,
`class_id`), in the order of the brace initialiser in `PostProcess`, which is
the order of RawDetection in the data model of the spec. -/
structure Detection where
  x_ctr : ℚ
  y_ctr : ℚ
  w : ℚ
  h : ℚ
  conf : ℚ
  class_id : ℚ
  deriving DecidableEq, Repr

end TRT

open TRT

/-- Left edge of the intersection of the two boxes (`left` in `IOU`), in
exact arithmetic. -/
def IOU.left (det1 det2 : Detection) : ℚ :=
  max (det1.x_ctr - det1.w / 2) (det2.x_ctr - det2.w / 2)

/-- Right edge of the intersection of the two boxes (`right` in `IOU`), in
exact arithmetic. -/
def IOU.right (det1 det2 : Detection) : ℚ :=
  min (det1.x_ctr + det1.w / 2) (det2.x_ctr + det2.w / 2)

/-- Top edge of the intersection of the two boxes (`top` in `IOU`), in exact
arithmetic. -/
def IOU.top (det1 det2 : Detection) : ℚ :=
  max (det1.y_ctr - det1.h / 2) (det2.y_ctr - det2.h / 2)

/-- Bottom edge of the intersection of the two boxes (`bottom` in `IOU`), in
exact arithmetic. -/
def IOU.bottom (det1 det2 : Detection) : ℚ :=
  min (det1.y_ctr + det1.h / 2) (det2.y_ctr + det2.h / 2)

/-- Area of the intersection rectangle (`inter_box_s` in `IOU`), in exact
arithmetic. -/
def IOU.inter_box_s (det1 det2 : Detection) : ℚ :=
  (IOU.right det1 det2 - IOU.left det1 det2) * (IOU.bottom det1 det2 - IOU.top det1 det2)

/-- Denominator of the final division of `IOU`, in exact arithmetic. -/
def IOU.denominator (det1 det2 : Detection) : ℚ :=
  det1.w * det1.h + det2.w * det2.h - IOU.inter_box_s det1 det2

/-- Embedding of `static float IOU(const TRT::Detection&, const TRT::Detection&)`
in exact arithmetic: the expressions of the source without rounding.  The
same function in binary floating point is `IOU_f32`. -/
def IOU (det1 det2 : Detection) : ℚ :=
  if IOU.top det1 det2 > IOU.bottom det1 det2 ∨ IOU.left det1 det2 > IOU.right det1 det2 then 0
  else IOU.inter_box_s det1 det2 / IOU.denominator det1 det2

/-- How a loop of the model stopped: it ran to its exit test (`finished`), it
read through an iterator outside `[begin, end)` (`pastEnd`, undefined
behaviour in C++), or the recursion bound of the model was used up
(`outOfFuel`; the bounds chosen below are never used up, see
`eraseLoop_status_ne_outOfFuel` and `whileLoop_status_ne_outOfFuel`). -/
inductive Status where
  | finished
  | pastEnd
  | outOfFuel
  deriving DecidableEq, Repr

/-- State of the inner `for` loop of `NonMaxSuppression` when it stops: the
working vector, the elements `erase` was called on (a ghost record, in the
order of the calls), and how the loop stopped. -/
structure ErasePass where
  dets : List Detection
  erased : List Detection
  status : Status
  deriving DecidableEq, Repr

/-- Embedding of the inner loop of `NonMaxSuppression`:
`for (auto it = dets.begin(); it != dets.end(); ++it)
   if (IOU(highest, *it) > nms_thresh) dets.erase(it);`
`it` is the position of the iterator.  After `dets.erase(it)` the loop still
executes `++it`, so the element that moved into position `it` is not
examined.  The first argument bounds the number of loop tests. -/
def eraseLoop (highest : Detection) (nms_thresh : ℚ) :
    Nat → Nat → List Detection → List Detection → ErasePass
  | 0, _, dets, erased => ⟨dets, erased, Status.outOfFuel⟩
  | fuel + 1, it, dets, erased =>
    if it = dets.length then ⟨dets, erased, Status.finished⟩
    else
      match dets[it]? with
      | none => ⟨dets, erased, Status.pastEnd⟩
      | some d =>
        if IOU highest d > nms_thresh then
          eraseLoop highest nms_thresh fuel (it + 1) (dets.eraseIdx it) (erased ++ [d])
        else
          eraseLoop highest nms_thresh fuel (it + 1) dets erased

/-- Result of a run of `NonMaxSuppression`: the vector `keep`, the ghost
record of every `erase` call as a pair (the `highest` of that pass, the
erased element), and how the run stopped. -/
structure NmsRun where
  keep : List Detection
  suppressed : List (Detection × Detection)
  status : Status
  deriving DecidableEq, Repr

/-- Embedding of `while (!dets.empty()) { ... }` of `NonMaxSuppression`:
`highest = dets.back(); keep.push_back(highest); dets.pop_back();` and then
the inner loop.  The first argument bounds the number of loop tests. -/
def whileLoop (nms_thresh : ℚ) :
    Nat → List Detection → List Detection → List (Detection × Detection) → NmsRun
  | 0, _, keep, suppressed => ⟨keep, suppressed, Status.outOfFuel⟩
  | fuel + 1, dets, keep, suppressed =>
    match dets.getLast? with
    | none => ⟨keep, suppressed, Status.finished⟩
    | some highest =>
      let pass := eraseLoop highest nms_thresh (dets.dropLast.length + 1) 0 dets.dropLast []
      let suppressed := suppressed ++ pass.erased.map (fun d => (highest, d))
      match pass.status with
      | Status.finished => whileLoop nms_thresh fuel pass.dets (keep ++ [highest]) suppressed
      | s => ⟨keep ++ [highest], suppressed, s⟩

/-- The call `std::sort(dets.begin(), dets.end(), comp)` with
`comp(det1, det2) = det1.conf < det2.conf`: the vector ends up ascending by
confidence.  `std::sort` leaves the relative order of detections of equal
confidence unspecified; the model keeps it (insertion sort, which is what
the library runs on short vectors). -/
def sortByConf (dets : List Detection) : List Detection :=
  dets.insertionSort (fun det1 det2 => det1.conf ≤ det2.conf)

/-- Embedding of `NonMaxSuppression` with its ghost record. -/
def NonMaxSuppressionRun (dets : List Detection) (nms_thresh : ℚ) : NmsRun :=
  if dets = [] then ⟨[], [], Status.finished⟩
  else whileLoop nms_thresh ((sortByConf dets).length + 1) (sortByConf dets) [] []

/-- Embedding of `void NonMaxSuppression(std::vector<TRT::Detection> &dets, float nms_thresh)`:
the value of `dets` after the call, `none` when the call has undefined
behaviour. -/
def NonMaxSuppression (dets : List Detection) (nms_thresh : ℚ) : Option (List Detection) :=
  match (NonMaxSuppressionRun dets nms_thresh).status with
  | Status.finished => some (NonMaxSuppressionRun dets nms_thresh).keep
  | _ => none


/-- Reference definition of intersection-over-union, following the words of
the specification: intersection = max(0, min(right1, right2) − max(left1, left2))
× max(0, min(bottom1, bottom2) − max(top1, top2)), and IoU =
intersection / (area1 + area2 − intersection). -/
def IOU_reference (det1 det2 : Detection) : ℚ :=
  let left1 := det1.x_ctr - det1.w / 2
  let right1 := det1.x_ctr + det1.w / 2
  let top1 := det1.y_ctr - det1.h / 2
  let bottom1 := det1.y_ctr + det1.h / 2
  let left2 := det2.x_ctr - det2.w / 2
  let right2 := det2.x_ctr + det2.w / 2
  let top2 := det2.y_ctr - det2.h / 2
  let bottom2 := det2.y_ctr + det2.h / 2
  let intersection :=
    max 0 (min right1 right2 - max left1 left2) * max 0 (min bottom1 bottom2 - max top1 top2)
  intersection / (det1.w * det1.h + det2.w * det2.h - intersection)

/-- Ascending by confidence, as `std::sort` leaves the vector. -/
def AscendingConf (dets : List Detection) : Prop :=
  dets.Pairwise (fun det1 det2 => det1.conf ≤ det2.conf)


/-- Loop of `std::max_element(first, last)` (the standard library, not this
repository): `largest` moves to `first` only when `*largest < *first`, so the
first of several greatest elements is the one returned.  Positions are
offsets from the start of the range. -/
def max_element.loop : Nat → ℚ → Nat → List ℚ → Nat
  | largest, _, _, [] => largest
  | largest, largestVal, first, x :: xs =>
    if largestVal < x then max_element.loop first x (first + 1) xs
    else max_element.loop largest largestVal (first + 1) xs

/-- The call `std::max_element(first, last)` on the values of the range:
the offset of the returned iterator from `first` (on an empty range the
library returns `last`, which is `first`). -/
def max_element : List ℚ → Nat
  | [] => 0
  | x :: xs => max_element.loop 0 x 1 xs

/-- Embedding of the loop of `TrtDetector::PostProcess`:
`for (auto it = prob.begin(); it != prob.end(); it += dim_out_.d[4])`.
The iterator `it` is the part of the buffer from its position to the end, so
`*(it + k)` is `it[k]?`.  `d4` is `dim_out_.d[4]` and `conf_thresh` is the
member `conf_thresh_`.  The result is `none` when the code has no defined
result: a read or a step past the end of the buffer, a reversed range given
to `std::max_element`, or a stride of 0.  The first argument bounds the
number of loop tests; on a buffer made of whole rows the bound is never
used up (`TrtDetector.PostProcess_rows`). -/
def TrtDetector.PostProcess.loop (d4 : Nat) (conf_thresh : ℚ) :
    Nat → List ℚ → List Detection → Option (List Detection)
  | 0, _, _ => none
  | fuel + 1, it, dets =>
    if it = [] then some dets
    else if d4 = 0 ∨ it.length < d4 then none
    else
      match it[4]? with
      | none => none
      | some obj =>
        if obj > conf_thresh then
          if d4 < 4 then none
          else
            let class_id := max_element ((it.drop 4).take (d4 - 4))
            match it[0]?, it[1]?, it[2]?, it[3]?, it[4 + class_id]? with
            | some x, some y, some w, some h, some max_conf =>
              TrtDetector.PostProcess.loop d4 conf_thresh fuel (it.drop d4)
                (dets ++ [⟨x, y, w, h, max_conf * obj, (class_id : ℚ)⟩])
            | _, _, _, _, _ => none
        else
          TrtDetector.PostProcess.loop d4 conf_thresh fuel (it.drop d4) dets

/-- Embedding of `std::vector<TRT::Detection> TrtDetector::PostProcess(std::vector<float> prob)`. -/
def TrtDetector.PostProcess (d4 : Nat) (conf_thresh : ℚ) (prob : List ℚ) :
    Option (List Detection) :=
  TrtDetector.PostProcess.loop d4 conf_thresh (prob.length + 1) prob []

/-- The detection the body of the loop of `PostProcess` builds from a whole
row `[x, y, w, h, objectness, class_0, ...]`: the range searched by
`std::max_element` starts at index 4. -/
def TrtDetector.PostProcess.decode (row : List ℚ) : Detection :=
  ⟨row.getD 0 0, row.getD 1 0, row.getD 2 0, row.getD 3 0,
    (row.drop 4).getD (max_element (row.drop 4)) 0 * row.getD 4 0,
    (max_element (row.drop 4) : ℚ)⟩
/-! ## Detector orchestrators and armor geometry -/

/-- Embedding of the state of `GuidingLightDetector` that `Detect` touches:
the members `key_points_` and `targets_`.  The types `cv::KeyPoint` and
`GuidingLight` are declared outside the sources and are parameters. -/
structure GuidingLightDetector (KeyPoint GuidingLight : Type) where
  key_points_ : List KeyPoint
  targets_ : List GuidingLight

/-- Embedding of `void GuidingLightDetector::FindGuidingLight(const cv::Mat &frame)`.
The call `detector_->detect(frame, key_points_)` (OpenCV) is the parameter
`detect`: it gives the content of `key_points_` after the call from the frame
and the content before the call.  The constructor `GuidingLight(kpt)` is the
parameter `light`.  Timing and logging are left out. -/
def GuidingLightDetector.FindGuidingLight {Frame KeyPoint GuidingLight : Type}
    (detect : Frame → List KeyPoint → List KeyPoint) (light : KeyPoint → GuidingLight)
    (self : GuidingLightDetector KeyPoint GuidingLight) (frame : Frame) :
    GuidingLightDetector KeyPoint GuidingLight :=
  let self : GuidingLightDetector KeyPoint GuidingLight := { self with targets_ := [] }
  let self : GuidingLightDetector KeyPoint GuidingLight :=
    { self with key_points_ := detect frame self.key_points_ }
  if !self.key_points_.isEmpty then
    { self with
      targets_ := self.key_points_.foldl (fun targets kpt => targets ++ [light kpt]) self.targets_ }
  else self

/-- Embedding of `GuidingLightDetector::Detect`: the state after the call and
the returned reference to `targets_`. -/
def GuidingLightDetector.Detect {Frame KeyPoint GuidingLight : Type}
    (detect : Frame → List KeyPoint → List KeyPoint) (light : KeyPoint → GuidingLight)
    (self : GuidingLightDetector KeyPoint GuidingLight) (frame : Frame) :
    GuidingLightDetector KeyPoint GuidingLight × List GuidingLight :=
  let self := GuidingLightDetector.FindGuidingLight detect light self frame
  (self, self.targets_)

/-- Embedding of the state of `SnipeDetector` that `Detect` touches: the
member `targets_`.  The type `Armor` is a parameter here. -/
structure SnipeDetector (Armor : Type) where
  targets_ : List Armor

/-- Embedding of `void SnipeDetector::FindArmor(const cv::Mat &frame)`:
`targets_.clear(); (void)frame; targets_.emplace_back(Armor());`.  The value
of the default constructor `Armor()` is the parameter `armor`.  The frame is
not read. -/
def SnipeDetector.FindArmor {Frame Armor : Type} (armor : Armor) (self : SnipeDetector Armor)
    (_frame : Frame) : SnipeDetector Armor :=
  let self : SnipeDetector Armor := { self with targets_ := [] }
  { self with targets_ := self.targets_ ++ [armor] }

/-- Embedding of `SnipeDetector::Detect`: the state after the call and the
returned reference to `targets_`. -/
def SnipeDetector.Detect {Frame Armor : Type} (armor : Armor) (self : SnipeDetector Armor)
    (frame : Frame) : SnipeDetector Armor × List Armor :=
  let self := SnipeDetector.FindArmor armor self frame
  (self, self.targets_)

namespace cv

/-- The OpenCV type `cv::Point2f`. -/
structure Point2f where
  x : ℚ
  y : ℚ
  deriving DecidableEq, Repr

/-- The OpenCV type `cv::Size2f`. -/
structure Size2f where
  width : ℚ
  height : ℚ
  deriving DecidableEq, Repr

/-- The OpenCV type `cv::RotatedRect`, built from centre, size and angle in
degrees. -/
structure RotatedRect where
  center : Point2f
  size : Size2f
  angle : ℚ
  deriving DecidableEq, Repr

end cv

namespace game

/-- Modelled from the spec: the enumeration `game::Model` is declared in
`common.hpp`, which is not among the sources.  The values are the ones the
data model of the spec lists for the attribute `model` of Armor, with the
prefix `k` the sources use (`kUNKNOWN`, `kHERO`, `kOUTPOST`). -/
inductive Model where
  | kUNKNOWN
  | kHERO
  | kENGINEER
  | kINFANTRY_3
  | kINFANTRY_4
  | kINFANTRY_5
  | kSENTRY
  | kOUTPOST
  | kBASE
  deriving DecidableEq, Repr

end game

/-- Modelled from the spec: the class `LightBar` (`light_bar.hpp`,
`light_bar.cpp`) is not among the sources.  A light bar is derived from an
oriented rectangle; its vertices are not modelled. -/
structure LightBar where
  rect : cv.RotatedRect
  deriving DecidableEq, Repr

/-- Modelled from the spec: `center` of a LightBar is the centre of its
rectangle (`LightBar::ImageCenter` is not among the sources). -/
def LightBar.ImageCenter (self : LightBar) : cv.Point2f := self.rect.center

/-- Modelled from the spec: `angle` of a LightBar is the angle of its
rectangle, in degrees (`LightBar::ImageAngle` is not among the sources). -/
def LightBar.ImageAngle (self : LightBar) : ℚ := self.rect.angle

/-- Modelled from the spec: `length = max(width, height)` of the rectangle
(`LightBar::Length` is not among the sources). -/
def LightBar.Length (self : LightBar) : ℚ := max self.rect.size.width self.rect.size.height

/-- Modelled from the spec: the class `Armor` (`armor.hpp`, `armor.cpp`) is
not among the sources.  The attributes are `center`, `angle` and `model` of
the data model of the spec. -/
structure Armor where
  center : cv.Point2f
  angle : ℚ
  model : game.Model
  deriving DecidableEq, Repr

/-- Modelled from the spec: the constructor `Armor(left, right)` is not
among the sources.  `center = midpoint(left.center, right.center)`,
`angle = mean(left.angle, right.angle)`, and `model` defaults to UNKNOWN
until a classifier assigns it. -/
def Armor.ofLightBars (left right : LightBar) : Armor :=
  { center := ⟨(left.ImageCenter.x + right.ImageCenter.x) / 2,
      (left.ImageCenter.y + right.ImageCenter.y) / 2⟩
    angle := (left.ImageAngle + right.ImageAngle) / 2
    model := game.Model.kUNKNOWN }

/-- Modelled from the spec: the accessor `Armor::ImageCenter` is not among
the sources; it reads `center`. -/
def Armor.ImageCenter (self : Armor) : cv.Point2f := self.center

/-- Modelled from the spec: the accessor `Armor::ImageAngle` is not among
the sources; it reads `angle`. -/
def Armor.ImageAngle (self : Armor) : ℚ := self.angle

/-- Modelled from the spec: the accessor `Armor::GetModel` is not among the
sources; it reads `model`. -/
def Armor.GetModel (self : Armor) : game.Model := self.model

/-- Modelled from the spec: the setter `Armor::SetModel` is not among the
sources; it assigns `model` and changes nothing else. -/
def Armor.SetModel (self : Armor) (model : game.Model) : Armor := { self with model := model }

/-- The assertions of `TEST(TestVision, TestArmor)` in
`apps/tests/vision/armor.cpp`, in the order of the test; `ASSERT_FLOAT_EQ` is
equality in exact arithmetic. -/
def TestVision.TestArmor : Prop :=
  let left_rect : cv.RotatedRect := ⟨⟨1, 3⟩, ⟨1, 3⟩, 5⟩
  let right_rect : cv.RotatedRect := ⟨⟨3, 1⟩, ⟨1, 3⟩, 7⟩
  let left_bar : LightBar := ⟨left_rect⟩
  let right_bar : LightBar := ⟨right_rect⟩
  let model : game.Model := game.Model.kHERO
  let armor : Armor := Armor.ofLightBars left_bar right_bar
  armor.ImageCenter.x = 2 ∧ armor.ImageCenter.y = 2 ∧ armor.ImageAngle = 6 ∧
    armor.GetModel = game.Model.kUNKNOWN ∧ (armor.SetModel model).GetModel = model

/-! ## Binary floating point

The definitions below follow IEEE 754 arithmetic in round-to-nearest,
ties-to-even, which is what the C++ types `float` (binary32) and `double`
(binary64) use on the targets of this repository.  Every operation rounds
its exact result to the format of its C++ type (no fused multiply-add, no
extended intermediate precision).  The sign of a zero is not modelled: in
`IOU` a zero is only compared, subtracted, or divided into, and every
quotient with a zero denominator that `IOU` can form has a numerator that is
zero or positive. -/

/-- Value of a C++ floating-point expression: a finite number, an infinity,
or NaN. -/
inductive FVal where
  | fin (q : ℚ)
  | posInf
  | negInf
  | nan
  deriving DecidableEq, Repr

/-- A binary floating-point format: `prec` significant bits, `emin` the
exponent of the smallest positive (subnormal) number, `maxFinite` the
largest finite number. -/
structure Format where
  prec : Nat
  emin : ℤ
  maxFinite : ℚ

/-- The format binary32 of the C++ type `float`. -/
def F32 : Format := ⟨24, -149, (2 ^ 24 - 1) * 2 ^ 104⟩

/-- The format binary64 of the C++ type `double`. -/
def F64 : Format := ⟨53, -1074, (2 ^ 53 - 1) * 2 ^ 971⟩

/-- The integer nearest to `y`, the even one of the two when `y` is halfway
between two integers. -/
def roundHalfEven (y : ℚ) : ℤ :=
  if y - ⌊y⌋ < 1 / 2 then ⌊y⌋
  else if 1 / 2 < y - ⌊y⌋ then ⌊y⌋ + 1
  else if ⌊y⌋ % 2 = 0 then ⌊y⌋
  else ⌊y⌋ + 1

/-- Exponent of the unit in the last place of the format at `x`: the numbers
of the format close to `x` are the integer multiples of `2 ^ ulpExp x`. -/
def Format.ulpExp (f : Format) (x : ℚ) : ℤ :=
  max (Int.log 2 |x| - (f.prec - 1)) f.emin

/-- The multiple of the unit in the last place nearest to `x`, ties to even
(rounding with an unbounded exponent range upwards). -/
def Format.roundQ (f : Format) (x : ℚ) : ℚ :=
  roundHalfEven (x / 2 ^ f.ulpExp x) * 2 ^ f.ulpExp x

/-- Rounding of an exact result to the format: the nearest number of the
format, an infinity when that exceeds the largest finite number. -/
def Format.round (f : Format) (x : ℚ) : FVal :=
  if f.maxFinite < f.roundQ x then FVal.posInf
  else if f.roundQ x < -f.maxFinite then FVal.negInf
  else FVal.fin (f.roundQ x)

/-- Negation of a floating-point value. -/
def FVal.neg : FVal → FVal
  | FVal.fin x => FVal.fin (-x)
  | FVal.posInf => FVal.negInf
  | FVal.negInf => FVal.posInf
  | FVal.nan => FVal.nan

/-- The operator `+` in the format `f`. -/
def Format.add (f : Format) : FVal → FVal → FVal
  | FVal.fin x, FVal.fin y => f.round (x + y)
  | FVal.nan, _ => FVal.nan
  | _, FVal.nan => FVal.nan
  | FVal.posInf, FVal.negInf => FVal.nan
  | FVal.negInf, FVal.posInf => FVal.nan
  | FVal.posInf, _ => FVal.posInf
  | _, FVal.posInf => FVal.posInf
  | FVal.negInf, _ => FVal.negInf
  | _, FVal.negInf => FVal.negInf

/-- The operator `-` in the format `f`. -/
def Format.sub (f : Format) (a b : FVal) : FVal := f.add a b.neg

/-- The operator `*` in the format `f`. -/
def Format.mul (f : Format) : FVal → FVal → FVal
  | FVal.fin x, FVal.fin y => f.round (x * y)
  | FVal.nan, _ => FVal.nan
  | _, FVal.nan => FVal.nan
  | FVal.fin x, FVal.posInf =>
    if x = 0 then FVal.nan else if 0 < x then FVal.posInf else FVal.negInf
  | FVal.fin x, FVal.negInf =>
    if x = 0 then FVal.nan else if 0 < x then FVal.negInf else FVal.posInf
  | FVal.posInf, FVal.fin y =>
    if y = 0 then FVal.nan else if 0 < y then FVal.posInf else FVal.negInf
  | FVal.negInf, FVal.fin y =>
    if y = 0 then FVal.nan else if 0 < y then FVal.negInf else FVal.posInf
  | FVal.posInf, FVal.posInf => FVal.posInf
  | FVal.negInf, FVal.negInf => FVal.posInf
  | FVal.posInf, FVal.negInf => FVal.negInf
  | FVal.negInf, FVal.posInf => FVal.negInf

/-- The operator `/` in the format `f`.  A zero denominator gives NaN for a
zero numerator and an infinity of the sign of the numerator otherwise. -/
def Format.div (f : Format) : FVal → FVal → FVal
  | FVal.fin x, FVal.fin y =>
    if y = 0 then
      if x = 0 then FVal.nan else if 0 < x then FVal.posInf else FVal.negInf
    else f.round (x / y)
  | FVal.nan, _ => FVal.nan
  | _, FVal.nan => FVal.nan
  | FVal.fin _, FVal.posInf => FVal.fin 0
  | FVal.fin _, FVal.negInf => FVal.fin 0
  | FVal.posInf, FVal.fin y => if 0 ≤ y then FVal.posInf else FVal.negInf
  | FVal.negInf, FVal.fin y => if 0 ≤ y then FVal.negInf else FVal.posInf
  | FVal.posInf, FVal.posInf => FVal.nan
  | FVal.posInf, FVal.negInf => FVal.nan
  | FVal.negInf, FVal.posInf => FVal.nan
  | FVal.negInf, FVal.negInf => FVal.nan

/-- The comparison `a < b` of two floating-point values: false when one of
them is NaN. -/
def FVal.lt : FVal → FVal → Bool
  | FVal.fin x, FVal.fin y => decide (x < y)
  | FVal.nan, _ => false
  | _, FVal.nan => false
  | FVal.negInf, FVal.negInf => false
  | FVal.negInf, _ => true
  | _, FVal.negInf => false
  | FVal.posInf, _ => false
  | _, FVal.posInf => true

/-- The comparison `a > b`, which is `b < a`. -/
def FVal.gt (a b : FVal) : Bool := FVal.lt b a

/-- The call `std::max(a, b)`, which is `(a < b) ? b : a`. -/
def FVal.max (a b : FVal) : FVal := if FVal.lt a b then b else a

/-- The call `std::min(a, b)`, which is `(b < a) ? b : a`. -/
def FVal.min (a b : FVal) : FVal := if FVal.lt b a then b else a

/-- Conversion of a `double` value to `float` (the initialisation of a
`const float` from a `double` expression). -/
def FVal.toF32 : FVal → FVal
  | FVal.fin x => F32.round x
  | v => v

/-- The edge `left` of `IOU` as the program computes it: the operands are
converted to `double`, `det.w / 2.`, the subtraction and `std::max` are in
`double`, and the result is stored in a `const float`. -/
def IOU_f32.left (det1 det2 : Detection) : FVal :=
  FVal.toF32 (FVal.max
    (F64.sub (FVal.fin det1.x_ctr) (F64.div (FVal.fin det1.w) (FVal.fin 2)))
    (F64.sub (FVal.fin det2.x_ctr) (F64.div (FVal.fin det2.w) (FVal.fin 2))))

/-- The edge `right` of `IOU` as the program computes it. -/
def IOU_f32.right (det1 det2 : Detection) : FVal :=
  FVal.toF32 (FVal.min
    (F64.add (FVal.fin det1.x_ctr) (F64.div (FVal.fin det1.w) (FVal.fin 2)))
    (F64.add (FVal.fin det2.x_ctr) (F64.div (FVal.fin det2.w) (FVal.fin 2))))

/-- The edge `top` of `IOU` as the program computes it. -/
def IOU_f32.top (det1 det2 : Detection) : FVal :=
  FVal.toF32 (FVal.max
    (F64.sub (FVal.fin det1.y_ctr) (F64.div (FVal.fin det1.h) (FVal.fin 2)))
    (F64.sub (FVal.fin det2.y_ctr) (F64.div (FVal.fin det2.h) (FVal.fin 2))))

/-- The edge `bottom` of `IOU` as the program computes it. -/
def IOU_f32.bottom (det1 det2 : Detection) : FVal :=
  FVal.toF32 (FVal.min
    (F64.add (FVal.fin det1.y_ctr) (F64.div (FVal.fin det1.h) (FVal.fin 2)))
    (F64.add (FVal.fin det2.y_ctr) (F64.div (FVal.fin det2.h) (FVal.fin 2))))

/-- The value `inter_box_s` of `IOU` as the program computes it:
`(right - left) * (bottom - top)` in `float`. -/
def IOU_f32.inter_box_s (det1 det2 : Detection) : FVal :=
  F32.mul (F32.sub (IOU_f32.right det1 det2) (IOU_f32.left det1 det2))
    (F32.sub (IOU_f32.bottom det1 det2) (IOU_f32.top det1 det2))

/-- The denominator of the final division of `IOU` as the program computes
it: `det1.w * det1.h + det2.w * det2.h - inter_box_s` in `float`. -/
def IOU_f32.denominator (det1 det2 : Detection) : FVal :=
  F32.sub
    (F32.add (F32.mul (FVal.fin det1.w) (FVal.fin det1.h))
      (F32.mul (FVal.fin det2.w) (FVal.fin det2.h)))
    (IOU_f32.inter_box_s det1 det2)

/-- Embedding of `static float IOU(const TRT::Detection&, const TRT::Detection&)`
in binary floating point.  The fields of the detections are the values of
the `float` members. -/
def IOU_f32 (det1 det2 : Detection) : FVal :=
  if FVal.gt (IOU_f32.top det1 det2) (IOU_f32.bottom det1 det2) ||
      FVal.gt (IOU_f32.left det1 det2) (IOU_f32.right det1 det2) then FVal.fin 0
  else F32.div (IOU_f32.inter_box_s det1 det2) (IOU_f32.denominator det1 det2)

/-- The test `top > bottom || left > right` of `IOU` as the program
evaluates it, on the `float` edges. -/
def IOU_f32.earlyReturn (det1 det2 : Detection) : Bool :=
  FVal.gt (IOU_f32.top det1 det2) (IOU_f32.bottom det1 det2) ||
    FVal.gt (IOU_f32.left det1 det2) (IOU_f32.right det1 det2)

/-- The intermediate values of `IOU` carry no rounding error: the four edges
that the program computes in binary floating point are the exact ones, and
so are the intersection area and the denominator when the program reaches
them (when the early return is not taken). -/
def IOU_f32.Exact (det1 det2 : Detection) : Prop :=
  IOU_f32.left det1 det2 = FVal.fin (IOU.left det1 det2) ∧
  IOU_f32.right det1 det2 = FVal.fin (IOU.right det1 det2) ∧
  IOU_f32.top det1 det2 = FVal.fin (IOU.top det1 det2) ∧
  IOU_f32.bottom det1 det2 = FVal.fin (IOU.bottom det1 det2) ∧
  (IOU_f32.earlyReturn det1 det2 = false →
    IOU_f32.inter_box_s det1 det2 = FVal.fin (IOU.inter_box_s det1 det2) ∧
    IOU_f32.denominator det1 det2 = FVal.fin (IOU.denominator det1 det2))

instance (det1 det2 : Detection) : Decidable (IOU_f32.Exact det1 det2) := by
  unfold IOU_f32.Exact
  infer_instance

/-- The inner loop of `NonMaxSuppression` (see `eraseLoop`) with the test
`IOU(highest, *it) > nms_thresh` evaluated in binary floating point. -/
def eraseLoop_f32 (highest : Detection) (nms_thresh : ℚ) :
    Nat → Nat → List Detection → List Detection → ErasePass
  | 0, _, dets, erased => ⟨dets, erased, Status.outOfFuel⟩
  | fuel + 1, it, dets, erased =>
    if it = dets.length then ⟨dets, erased, Status.finished⟩
    else
      match dets[it]? with
      | none => ⟨dets, erased, Status.pastEnd⟩
      | some d =>
        if FVal.gt (IOU_f32 highest d) (FVal.fin nms_thresh) then
          eraseLoop_f32 highest nms_thresh fuel (it + 1) (dets.eraseIdx it) (erased ++ [d])
        else
          eraseLoop_f32 highest nms_thresh fuel (it + 1) dets erased

/-- The outer loop of `NonMaxSuppression` (see `whileLoop`) over
`eraseLoop_f32`. -/
def whileLoop_f32 (nms_thresh : ℚ) :
    Nat → List Detection → List Detection → List (Detection × Detection) → NmsRun
  | 0, _, keep, suppressed => ⟨keep, suppressed, Status.outOfFuel⟩
  | fuel + 1, dets, keep, suppressed =>
    match dets.getLast? with
    | none => ⟨keep, suppressed, Status.finished⟩
    | some highest =>
      let pass := eraseLoop_f32 highest nms_thresh (dets.dropLast.length + 1) 0 dets.dropLast []
      let suppressed := suppressed ++ pass.erased.map (fun d => (highest, d))
      match pass.status with
      | Status.finished => whileLoop_f32 nms_thresh fuel pass.dets (keep ++ [highest]) suppressed
      | s => ⟨keep ++ [highest], suppressed, s⟩

/-- Embedding of `NonMaxSuppression` with its ghost record, the values of
`IOU` computed in binary floating point. -/
def NonMaxSuppressionRun_f32 (dets : List Detection) (nms_thresh : ℚ) : NmsRun :=
  if dets = [] then ⟨[], [], Status.finished⟩
  else whileLoop_f32 nms_thresh ((sortByConf dets).length + 1) (sortByConf dets) [] []

/-- Embedding of `void NonMaxSuppression(std::vector<TRT::Detection> &dets, float nms_thresh)`
with the values of `IOU` computed in binary floating point: the value of
`dets` after the call, `none` when the call has undefined behaviour. -/
def NonMaxSuppression_f32 (dets : List Detection) (nms_thresh : ℚ) : Option (List Detection) :=
  match (NonMaxSuppressionRun_f32 dets nms_thresh).status with
  | Status.finished => some (NonMaxSuppressionRun_f32 dets nms_thresh).keep
  | _ => none

/-! ## Arithmetic of `IOU` -/

theorem IOU.width_le_left (det1 det2 : Detection) :
    IOU.right det1 det2 - IOU.left det1 det2 ≤ det1.w := by
  have h1 : IOU.right det1 det2 ≤ det1.x_ctr + det1.w / 2 := min_le_left _ _
  have h2 : det1.x_ctr - det1.w / 2 ≤ IOU.left det1 det2 := le_max_left _ _
  linarith

theorem IOU.width_le_right (det1 det2 : Detection) :
    IOU.right det1 det2 - IOU.left det1 det2 ≤ det2.w := by
  have h1 : IOU.right det1 det2 ≤ det2.x_ctr + det2.w / 2 := min_le_right _ _
  have h2 : det2.x_ctr - det2.w / 2 ≤ IOU.left det1 det2 := le_max_right _ _
  linarith

theorem IOU.height_le_left (det1 det2 : Detection) :
    IOU.bottom det1 det2 - IOU.top det1 det2 ≤ det1.h := by
  have h1 : IOU.bottom det1 det2 ≤ det1.y_ctr + det1.h / 2 := min_le_left _ _
  have h2 : det1.y_ctr - det1.h / 2 ≤ IOU.top det1 det2 := le_max_left _ _
  linarith

theorem IOU.height_le_right (det1 det2 : Detection) :
    IOU.bottom det1 det2 - IOU.top det1 det2 ≤ det2.h := by
  have h1 : IOU.bottom det1 det2 ≤ det2.y_ctr + det2.h / 2 := min_le_right _ _
  have h2 : det2.y_ctr - det2.h / 2 ≤ IOU.top det1 det2 := le_max_right _ _
  linarith

/-- When the early return of `IOU` is not taken the intersection area is
non-negative. -/
theorem IOU.inter_box_s_nonneg (det1 det2 : Detection)
    (hv : ¬ IOU.top det1 det2 > IOU.bottom det1 det2) (hh : ¬ IOU.left det1 det2 > IOU.right det1 det2) :
    0 ≤ IOU.inter_box_s det1 det2 := by
  unfold IOU.inter_box_s
  exact mul_nonneg (by linarith [not_lt.mp hh]) (by linarith [not_lt.mp hv])

/-- When the early return of `IOU` is not taken the intersection area is at
most the area of the first box. -/
theorem IOU.inter_box_s_le_left (det1 det2 : Detection) (hw1 : 0 < det1.w)
    (hv : ¬ IOU.top det1 det2 > IOU.bottom det1 det2) :
    IOU.inter_box_s det1 det2 ≤ det1.w * det1.h := by
  unfold IOU.inter_box_s
  exact mul_le_mul (IOU.width_le_left det1 det2) (IOU.height_le_left det1 det2)
    (by linarith [not_lt.mp hv]) hw1.le

/-- When the early return of `IOU` is not taken the intersection area is at
most the area of the second box. -/
theorem IOU.inter_box_s_le_right (det1 det2 : Detection) (hw2 : 0 < det2.w)
    (hv : ¬ IOU.top det1 det2 > IOU.bottom det1 det2) :
    IOU.inter_box_s det1 det2 ≤ det2.w * det2.h := by
  unfold IOU.inter_box_s
  exact mul_le_mul (IOU.width_le_right det1 det2) (IOU.height_le_right det1 det2)
    (by linarith [not_lt.mp hv]) hw2.le

/-- For boxes of positive width and height the division at the end of `IOU`
has a positive denominator whenever it is reached. -/
theorem IOU.denominator_pos (det1 det2 : Detection) (hw1 : 0 < det1.w) (hh1 : 0 < det1.h)
    (hw2 : 0 < det2.w) (hv : ¬ IOU.top det1 det2 > IOU.bottom det1 det2) :
    0 < IOU.denominator det1 det2 := by
  unfold IOU.denominator
  have h1 := IOU.inter_box_s_le_right det1 det2 hw2 hv
  have h2 : 0 < det1.w * det1.h := mul_pos hw1 hh1
  linarith

/-- The value of `IOU` does not depend on the order of its arguments. -/
theorem IOU_comm (det1 det2 : Detection) : IOU det1 det2 = IOU det2 det1 := by
  simp only [IOU, IOU.top, IOU.bottom, IOU.left, IOU.right, IOU.inter_box_s, IOU.denominator,
    max_comm (det1.x_ctr - det1.w / 2), min_comm (det1.x_ctr + det1.w / 2),
    max_comm (det1.y_ctr - det1.h / 2), min_comm (det1.y_ctr + det1.h / 2),
    add_comm (det1.w * det1.h)]

/-- Two boxes with the same centre and the same positive size have `IOU` 1,
whatever their confidences and classes. -/
theorem IOU_same_box (det1 det2 : Detection) (hx : det1.x_ctr = det2.x_ctr)
    (hy : det1.y_ctr = det2.y_ctr) (hw : det1.w = det2.w) (hh : det1.h = det2.h)
    (hw1 : 0 < det1.w) (hh1 : 0 < det1.h) : IOU det1 det2 = 1 := by
  have ha : 0 < det2.w * det2.h := mul_pos (hw ▸ hw1) (hh ▸ hh1)
  have hw2 : 0 < det2.w := hw ▸ hw1
  have hh2 : 0 < det2.h := hh ▸ hh1
  simp only [IOU, IOU.top, IOU.bottom, IOU.left, IOU.right, IOU.inter_box_s, IOU.denominator,
    hx, hy, hw, hh, max_self, min_self]
  rw [if_neg (by
    push_neg
    constructor <;> linarith)]
  have e : (det2.x_ctr + det2.w / 2 - (det2.x_ctr - det2.w / 2)) *
      (det2.y_ctr + det2.h / 2 - (det2.y_ctr - det2.h / 2)) = det2.w * det2.h := by ring
  rw [e]
  have e2 : det2.w * det2.h + det2.w * det2.h - det2.w * det2.h = det2.w * det2.h := by ring
  rw [e2]
  exact div_self ha.ne'

/-- The code of `IOU` computes the reference definition: on the early return
one of the two clamped factors of the reference intersection is 0, otherwise
no factor is clamped. -/
theorem IOU_eq_reference_all (det1 det2 : Detection) : IOU det1 det2 = IOU_reference det1 det2 := by
  unfold IOU IOU_reference
  simp only []
  by_cases hv : IOU.top det1 det2 > IOU.bottom det1 det2
  · rw [if_pos (Or.inl hv)]
    have : max 0 (min (det1.y_ctr + det1.h / 2) (det2.y_ctr + det2.h / 2) -
        max (det1.y_ctr - det1.h / 2) (det2.y_ctr - det2.h / 2)) = 0 := by
      apply max_eq_left
      unfold IOU.top IOU.bottom at hv
      linarith
    rw [this]
    simp
  · by_cases hh : IOU.left det1 det2 > IOU.right det1 det2
    · rw [if_pos (Or.inr hh)]
      have : max 0 (min (det1.x_ctr + det1.w / 2) (det2.x_ctr + det2.w / 2) -
          max (det1.x_ctr - det1.w / 2) (det2.x_ctr - det2.w / 2)) = 0 := by
        apply max_eq_left
        unfold IOU.left IOU.right at hh
        linarith
      rw [this]
      simp
    · rw [if_neg (by
        push_neg
        exact ⟨not_lt.mp hv, not_lt.mp hh⟩)]
      have e1 : max 0 (min (det1.x_ctr + det1.w / 2) (det2.x_ctr + det2.w / 2) -
          max (det1.x_ctr - det1.w / 2) (det2.x_ctr - det2.w / 2)) =
          IOU.right det1 det2 - IOU.left det1 det2 := by
        apply max_eq_right
        have := not_lt.mp hh
        unfold IOU.left IOU.right at this
        linarith
      have e2 : max 0 (min (det1.y_ctr + det1.h / 2) (det2.y_ctr + det2.h / 2) -
          max (det1.y_ctr - det1.h / 2) (det2.y_ctr - det2.h / 2)) =
          IOU.bottom det1 det2 - IOU.top det1 det2 := by
        apply max_eq_right
        have := not_lt.mp hv
        unfold IOU.top IOU.bottom at this
        linarith
      rw [e1, e2]
      rfl

/-- The value of `IOU` is never negative. -/
theorem IOU_nonneg (det1 det2 : Detection) (hw1 : 0 < det1.w) (hh1 : 0 < det1.h)
    (hw2 : 0 < det2.w) : 0 ≤ IOU det1 det2 := by
  unfold IOU
  split_ifs with hc
  · exact le_rfl
  · push_neg at hc
    exact div_nonneg (IOU.inter_box_s_nonneg det1 det2 (not_lt.mpr hc.1) (not_lt.mpr hc.2))
      (IOU.denominator_pos det1 det2 hw1 hh1 hw2 (not_lt.mpr hc.1)).le

/-- The value of `IOU` is at most 1. -/
theorem IOU_le_one (det1 det2 : Detection) (hw1 : 0 < det1.w) (hh1 : 0 < det1.h)
    (hw2 : 0 < det2.w) : IOU det1 det2 ≤ 1 := by
  unfold IOU
  split_ifs with hc
  · exact zero_le_one
  · push_neg at hc
    have hd := IOU.denominator_pos det1 det2 hw1 hh1 hw2 (not_lt.mpr hc.1)
    rw [div_le_one hd]
    have h1 := IOU.inter_box_s_le_left det1 det2 hw1 (not_lt.mpr hc.1)
    have h2 := IOU.inter_box_s_le_right det1 det2 hw2 (not_lt.mpr hc.1)
    unfold IOU.denominator
    linarith

/-- Boxes that only touch (the intersection has zero width or zero height)
have `IOU` 0. -/
theorem IOU_touching (det1 det2 : Detection)
    (ht : IOU.right det1 det2 = IOU.left det1 det2 ∨ IOU.bottom det1 det2 = IOU.top det1 det2) :
    IOU det1 det2 = 0 := by
  unfold IOU
  split_ifs with hc
  · rfl
  · have : IOU.inter_box_s det1 det2 = 0 := by
      unfold IOU.inter_box_s
      rcases ht with h | h <;> simp [h]
    rw [this, zero_div]

/-! ## The loops of `NonMaxSuppression` -/

/-- One test of the inner loop, for any positive bound. -/
theorem eraseLoop_unfold (highest : Detection) (nms_thresh : ℚ) (fuel it : Nat)
    (dets erased : List Detection) (hf : 0 < fuel) :
    eraseLoop highest nms_thresh fuel it dets erased =
      if it = dets.length then ⟨dets, erased, Status.finished⟩
      else
        match dets[it]? with
        | none => ⟨dets, erased, Status.pastEnd⟩
        | some d =>
          if IOU highest d > nms_thresh then
            eraseLoop highest nms_thresh (fuel - 1) (it + 1) (dets.eraseIdx it) (erased ++ [d])
          else
            eraseLoop highest nms_thresh (fuel - 1) (it + 1) dets erased := by
  cases fuel with
  | zero => omega
  | succ n => rfl

/-- One test of the outer loop, for any positive bound. -/
theorem whileLoop_unfold (nms_thresh : ℚ) (fuel : Nat) (dets keep : List Detection)
    (suppressed : List (Detection × Detection)) (hf : 0 < fuel) :
    whileLoop nms_thresh fuel dets keep suppressed =
      match dets.getLast? with
      | none => ⟨keep, suppressed, Status.finished⟩
      | some highest =>
        match (eraseLoop highest nms_thresh (dets.dropLast.length + 1) 0 dets.dropLast []).status with
        | Status.finished =>
          whileLoop nms_thresh (fuel - 1)
            (eraseLoop highest nms_thresh (dets.dropLast.length + 1) 0 dets.dropLast []).dets
            (keep ++ [highest])
            (suppressed ++
              (eraseLoop highest nms_thresh (dets.dropLast.length + 1) 0 dets.dropLast []).erased.map
                (fun d => (highest, d)))
        | s =>
          ⟨keep ++ [highest],
            suppressed ++
              (eraseLoop highest nms_thresh (dets.dropLast.length + 1) 0 dets.dropLast []).erased.map
                (fun d => (highest, d)), s⟩ := by
  cases fuel with
  | zero => omega
  | succ n => rfl

/-- The inner loop never uses up a bound that exceeds the number of elements
still in front of the iterator. -/
theorem eraseLoop_status_ne_outOfFuel (highest : Detection) (nms_thresh : ℚ) :
    ∀ (fuel it : Nat) (dets erased : List Detection), 0 < fuel → dets.length + 1 ≤ fuel + it →
      (eraseLoop highest nms_thresh fuel it dets erased).status ≠ Status.outOfFuel := by
  intro fuel
  induction fuel with
  | zero => intro it dets erased hf; omega
  | succ n ih =>
    intro it dets erased _ hlen
    rw [eraseLoop_unfold _ _ _ _ _ _ (Nat.succ_pos n)]
    by_cases hit : it = dets.length
    · simp [hit]
    · rw [if_neg hit]
      cases hd : dets[it]? with
      | none => simp
      | some d =>
        have hlt : it < dets.length := (List.getElem?_eq_some_iff.mp hd).1
        simp only [Nat.add_sub_cancel]
        split_ifs
        · apply ih
          · omega
          · rw [List.length_eraseIdx]
            split_ifs
            all_goals omega
        · apply ih <;> omega

/-- The working vector after the inner loop is a sub-sequence of the one
before it. -/
theorem eraseLoop_dets_sublist (highest : Detection) (nms_thresh : ℚ) :
    ∀ (fuel it : Nat) (dets erased : List Detection),
      (eraseLoop highest nms_thresh fuel it dets erased).dets.Sublist dets := by
  intro fuel
  induction fuel with
  | zero => intro it dets erased; exact List.Sublist.refl _
  | succ n ih =>
    intro it dets erased
    rw [eraseLoop_unfold _ _ _ _ _ _ (Nat.succ_pos n)]
    by_cases hit : it = dets.length
    · rw [if_pos hit]
    · rw [if_neg hit]
      cases hd : dets[it]? with
      | none => exact List.Sublist.refl _
      | some d =>
        simp only [Nat.add_sub_cancel]
        split_ifs
        · exact (ih _ _ _).trans (List.eraseIdx_sublist _ _)
        · exact ih _ _ _

/-- Every element the inner loop records as erased was recorded before or
is an element of the working vector. -/
theorem eraseLoop_erased_mem (highest : Detection) (nms_thresh : ℚ) :
    ∀ (fuel it : Nat) (dets erased : List Detection) (d : Detection),
      d ∈ (eraseLoop highest nms_thresh fuel it dets erased).erased → d ∈ erased ∨ d ∈ dets := by
  intro fuel
  induction fuel with
  | zero => intro it dets erased d hd; exact Or.inl hd
  | succ n ih =>
    intro it dets erased d
    rw [eraseLoop_unfold _ _ _ _ _ _ (Nat.succ_pos n)]
    by_cases hit : it = dets.length
    · rw [if_pos hit]
      exact Or.inl
    · rw [if_neg hit]
      cases hd : dets[it]? with
      | none => exact Or.inl
      | some x =>
        simp only [Nat.add_sub_cancel]
        split_ifs
        · intro h
          rcases ih _ _ _ _ h with h | h
          · rcases List.mem_append.mp h with h | h
            · exact Or.inl h
            · rw [List.mem_singleton] at h
              exact Or.inr (h ▸ List.getElem?_mem hd)
          · exact Or.inr ((List.eraseIdx_sublist _ _).subset h)
        · exact ih _ _ _ _

/-- Every element the inner loop records as erased has `IOU` with `highest`
above the threshold (or was recorded before). -/
theorem eraseLoop_erased_iou (highest : Detection) (nms_thresh : ℚ) :
    ∀ (fuel it : Nat) (dets erased : List Detection) (d : Detection),
      d ∈ (eraseLoop highest nms_thresh fuel it dets erased).erased →
        d ∈ erased ∨ IOU highest d > nms_thresh := by
  intro fuel
  induction fuel with
  | zero => intro it dets erased d hd; exact Or.inl hd
  | succ n ih =>
    intro it dets erased d
    rw [eraseLoop_unfold _ _ _ _ _ _ (Nat.succ_pos n)]
    by_cases hit : it = dets.length
    · rw [if_pos hit]
      exact Or.inl
    · rw [if_neg hit]
      cases hd : dets[it]? with
      | none => exact Or.inl
      | some x =>
        simp only [Nat.add_sub_cancel]
        split_ifs with hx
        · intro h
          rcases ih _ _ _ _ h with h | h
          · rcases List.mem_append.mp h with h | h
            · exact Or.inl h
            · rw [List.mem_singleton] at h
              exact Or.inr (h ▸ hx)
          · exact Or.inr h
        · exact ih _ _ _ _

theorem sortByConf_ascending (dets : List Detection) : AscendingConf (sortByConf dets) := by
  haveI : IsTotal Detection (fun det1 det2 => det1.conf ≤ det2.conf) :=
    ⟨fun a b => le_total a.conf b.conf⟩
  haveI : IsTrans Detection (fun det1 det2 => det1.conf ≤ det2.conf) :=
    ⟨fun a b c hab hbc => le_trans hab hbc⟩
  exact List.sorted_insertionSort _ dets

theorem sortByConf_perm (dets : List Detection) : (sortByConf dets).Perm dets :=
  List.perm_insertionSort _ dets

/-- In an ascending vector every element in front of the last one has at
most its confidence. -/
theorem AscendingConf.dropLast_le {dets : List Detection} (hs : AscendingConf dets)
    {highest : Detection} (hl : dets.getLast? = some highest) :
    AscendingConf dets.dropLast ∧ ∀ d ∈ dets.dropLast, d.conf ≤ highest.conf := by
  have e : dets.dropLast ++ [highest] = dets := List.dropLast_append_getLast? highest hl
  unfold AscendingConf at hs ⊢
  rw [← e, List.pairwise_append] at hs
  exact ⟨hs.1, fun d hd => hs.2.2 d hd highest (List.mem_singleton.mpr rfl)⟩

/-- Invariant of the outer loop on an ascending working vector: every
recorded `erase` removes a detection whose `IOU` with the `highest` of its
pass exceeds the threshold and whose confidence is at most that of
`highest`, and `highest` is in `keep`. -/
theorem whileLoop_suppressed (nms_thresh : ℚ) :
    ∀ (fuel : Nat) (dets keep : List Detection) (suppressed : List (Detection × Detection)),
      AscendingConf dets →
      (∀ p ∈ suppressed, p.1 ∈ keep ∧ IOU p.1 p.2 > nms_thresh ∧ p.2.conf ≤ p.1.conf) →
      ∀ p ∈ (whileLoop nms_thresh fuel dets keep suppressed).suppressed,
        p.1 ∈ (whileLoop nms_thresh fuel dets keep suppressed).keep ∧
          IOU p.1 p.2 > nms_thresh ∧ p.2.conf ≤ p.1.conf := by
  intro fuel
  induction fuel with
  | zero => intro dets keep suppressed _ hs p hp; exact hs p hp
  | succ n ih =>
    intro dets keep suppressed hasc hs
    rw [whileLoop_unfold _ _ _ _ _ (Nat.succ_pos n)]
    cases hl : dets.getLast? with
    | none => exact hs
    | some highest =>
      obtain ⟨hasc', hle⟩ := hasc.dropLast_le hl
      have hnew : ∀ p ∈ suppressed ++
          (eraseLoop highest nms_thresh (dets.dropLast.length + 1) 0 dets.dropLast []).erased.map
            (fun d => (highest, d)),
          p.1 ∈ keep ++ [highest] ∧ IOU p.1 p.2 > nms_thresh ∧ p.2.conf ≤ p.1.conf := by
        intro p hp
        rcases List.mem_append.mp hp with hp | hp
        · exact ⟨List.mem_append_left _ (hs p hp).1, (hs p hp).2⟩
        · obtain ⟨d, hd, rfl⟩ := List.mem_map.mp hp
          refine ⟨List.mem_append_right _ (List.mem_singleton.mpr rfl), ?_, ?_⟩
          · rcases eraseLoop_erased_iou _ _ _ _ _ _ _ hd with h | h
            · exact absurd h (List.not_mem_nil _)
            · exact h
          · rcases eraseLoop_erased_mem _ _ _ _ _ _ _ hd with h | h
            · exact absurd h (List.not_mem_nil _)
            · exact hle d h
      simp only [Nat.add_sub_cancel]
      split
      · exact ih _ _ _ (hasc'.sublist (eraseLoop_dets_sublist _ _ _ _ _ _)) hnew
      · exact hnew

/-- The outer loop never uses up a bound that exceeds the length of the
working vector. -/
theorem whileLoop_status_ne_outOfFuel (nms_thresh : ℚ) :
    ∀ (fuel : Nat) (dets keep : List Detection) (suppressed : List (Detection × Detection)),
      dets.length + 1 ≤ fuel →
      (whileLoop nms_thresh fuel dets keep suppressed).status ≠ Status.outOfFuel := by
  intro fuel
  induction fuel with
  | zero => intro dets keep suppressed h; omega
  | succ n ih =>
    intro dets keep suppressed hlen
    rw [whileLoop_unfold _ _ _ _ _ (Nat.succ_pos n)]
    cases hl : dets.getLast? with
    | none => simp
    | some highest =>
      have hpass := eraseLoop_status_ne_outOfFuel highest nms_thresh (dets.dropLast.length + 1) 0
        dets.dropLast [] (Nat.succ_pos _) (le_refl _)
      have hsub := (eraseLoop_dets_sublist highest nms_thresh (dets.dropLast.length + 1) 0
        dets.dropLast []).length_le
      have hne : dets ≠ [] := by
        intro h
        rw [h] at hl
        simp at hl
      have hdl : dets.dropLast.length + 1 = dets.length := by
        rw [List.length_dropLast]
        have := List.length_pos.mpr hne
        omega
      simp only [Nat.add_sub_cancel]
      split
      · apply ih
        omega
      · exact hpass

/-- A run of `NonMaxSuppression` never uses up the bounds of the model: it
finishes or it reads past the end of the vector. -/
theorem NonMaxSuppressionRun_status (dets : List Detection) (nms_thresh : ℚ) :
    (NonMaxSuppressionRun dets nms_thresh).status ≠ Status.outOfFuel := by
  unfold NonMaxSuppressionRun
  split_ifs
  · simp
  · exact whileLoop_status_ne_outOfFuel _ _ _ _ _ (le_refl _)

/-! ## Runs on short vectors -/

theorem sortByConf_pair (a b : Detection) :
    sortByConf [a, b] = if a.conf ≤ b.conf then [a, b] else [b, a] := by
  simp [sortByConf, List.insertionSort, List.orderedInsert]

/-- The outer loop on an ascending two-element vector `[lo, hi]`: when
`IOU(hi, lo)` exceeds the threshold `lo` is erased, it was the last element
of the working vector, and `++it` then moves the iterator past `end()`;
otherwise both are kept. -/
theorem whileLoop_pair (nms_thresh : ℚ) (lo hi : Detection) :
    whileLoop nms_thresh 3 [lo, hi] [] [] =
      if IOU hi lo > nms_thresh then ⟨[hi], [(hi, lo)], Status.pastEnd⟩
      else ⟨[hi, lo], [], Status.finished⟩ := by
  by_cases h : IOU hi lo > nms_thresh
  · simp [whileLoop_unfold, eraseLoop_unfold, h]
  · simp [whileLoop_unfold, eraseLoop_unfold, h]

theorem NonMaxSuppressionRun_pair (a b : Detection) (nms_thresh : ℚ) :
    NonMaxSuppressionRun [a, b] nms_thresh =
      if a.conf ≤ b.conf then
        (if IOU b a > nms_thresh then ⟨[b], [(b, a)], Status.pastEnd⟩
         else ⟨[b, a], [], Status.finished⟩)
      else
        (if IOU a b > nms_thresh then ⟨[a], [(a, b)], Status.pastEnd⟩
         else ⟨[a, b], [], Status.finished⟩) := by
  unfold NonMaxSuppressionRun
  rw [if_neg (by simp), sortByConf_pair]
  by_cases hc : a.conf ≤ b.conf
  · rw [if_pos hc, if_pos hc]
    exact whileLoop_pair nms_thresh a b
  · rw [if_neg hc, if_neg hc]
    exact whileLoop_pair nms_thresh b a

/-- On a two-element vector whose `IOU` does not exceed the threshold the
call finishes and keeps both detections, the one of higher confidence
first. -/
theorem NonMaxSuppression_pair_keep (a b : Detection) (nms_thresh : ℚ)
    (h : ¬ IOU a b > nms_thresh) :
    NonMaxSuppression [a, b] nms_thresh = some (if a.conf ≤ b.conf then [b, a] else [a, b]) := by
  have h' : ¬ IOU b a > nms_thresh := by rwa [IOU_comm]
  unfold NonMaxSuppression
  rw [NonMaxSuppressionRun_pair]
  by_cases hc : a.conf ≤ b.conf
  · simp [hc, h']
  · simp [hc, h]

/-- On a two-element vector whose `IOU` exceeds the threshold the inner loop
erases the detection of lower confidence and then reads past the end. -/
theorem NonMaxSuppression_pair_erase (a b : Detection) (nms_thresh : ℚ)
    (h : IOU a b > nms_thresh) :
    NonMaxSuppression [a, b] nms_thresh = none ∧
      (NonMaxSuppressionRun [a, b] nms_thresh).status = Status.pastEnd ∧
      (NonMaxSuppressionRun [a, b] nms_thresh).suppressed =
        (if a.conf ≤ b.conf then [(b, a)] else [(a, b)]) := by
  have h' : IOU b a > nms_thresh := by rwa [IOU_comm]
  unfold NonMaxSuppression
  rw [NonMaxSuppressionRun_pair]
  by_cases hc : a.conf ≤ b.conf
  · simp [hc, h']
  · simp [hc, h]

/-- Three detections with the same box and confidences 0.1, 0.2, 0.3 at
threshold 0.5: the pass of the third erases the first, steps over the
second, and the second is kept in the next pass. -/
theorem NonMaxSuppressionRun_three_same :
    NonMaxSuppressionRun
      [⟨0, 0, 2, 2, 1/10, 0⟩, ⟨0, 0, 2, 2, 2/10, 0⟩, ⟨0, 0, 2, 2, 3/10, 0⟩] (1/2) =
      ⟨[⟨0, 0, 2, 2, 3/10, 0⟩, ⟨0, 0, 2, 2, 2/10, 0⟩],
       [(⟨0, 0, 2, 2, 3/10, 0⟩, ⟨0, 0, 2, 2, 1/10, 0⟩)], Status.finished⟩ := by
  have e1 : IOU ⟨0, 0, 2, 2, 3/10, 0⟩ ⟨0, 0, 2, 2, 1/10, 0⟩ > 1/2 := by
    rw [IOU_same_box ⟨0, 0, 2, 2, 3/10, 0⟩ ⟨0, 0, 2, 2, 1/10, 0⟩ rfl rfl rfl rfl
      (by norm_num) (by norm_num)]
    norm_num
  have hs : sortByConf [⟨0, 0, 2, 2, 1/10, 0⟩, ⟨0, 0, 2, 2, 2/10, 0⟩, ⟨0, 0, 2, 2, 3/10, 0⟩] =
      [⟨0, 0, 2, 2, 1/10, 0⟩, ⟨0, 0, 2, 2, 2/10, 0⟩, ⟨0, 0, 2, 2, 3/10, 0⟩] := by
    simp [sortByConf]
    norm_num
  have p1 : eraseLoop ⟨0, 0, 2, 2, 3/10, 0⟩ (1/2) 3 0
      [⟨0, 0, 2, 2, 1/10, 0⟩, ⟨0, 0, 2, 2, 2/10, 0⟩] [] =
      ⟨[⟨0, 0, 2, 2, 2/10, 0⟩], [⟨0, 0, 2, 2, 1/10, 0⟩], Status.finished⟩ := by
    rw [eraseLoop_unfold _ _ _ _ _ _ (by decide)]
    simp only [List.length_cons, List.length_nil, List.getElem?_cons_zero]
    rw [if_neg (by decide), if_pos e1, eraseLoop_unfold _ _ _ _ _ _ (by decide)]
    simp
  have p2 : eraseLoop ⟨0, 0, 2, 2, 2/10, 0⟩ (1/2) 1 0 [] [] = ⟨[], [], Status.finished⟩ := by
    rw [eraseLoop_unfold _ _ _ _ _ _ (by decide)]
    simp
  unfold NonMaxSuppressionRun
  rw [if_neg (by simp), hs, whileLoop_unfold _ _ _ _ _ (by simp)]
  simp only [List.getLast?_cons_cons, List.getLast?_singleton, List.dropLast_cons₂,
    List.dropLast_single, List.length_cons, List.length_nil, p1]
  rw [whileLoop_unfold _ _ _ _ _ (by simp)]
  simp only [List.getLast?_singleton, List.dropLast_single, List.length_nil, p2]
  rw [whileLoop_unfold _ _ _ _ _ (by simp)]
  simp

/-! ## The decoder -/

theorem max_element.loop_lt :
    ∀ (xs : List ℚ) (largest first : Nat) (v : ℚ), largest < first →
      max_element.loop largest v first xs < first + xs.length := by
  intro xs
  induction xs with
  | nil => intro largest first v h; simpa [max_element.loop] using h
  | cons x xs ih =>
    intro largest first v h
    unfold max_element.loop
    split_ifs
    · have := ih first (first + 1) x (Nat.lt_succ_self _)
      simp only [List.length_cons]
      omega
    · have := ih largest (first + 1) v (Nat.lt_succ_of_lt h)
      simp only [List.length_cons]
      omega

/-- On a non-empty range `std::max_element` returns a position inside it. -/
theorem max_element_lt (x : ℚ) (xs : List ℚ) : max_element (x :: xs) < (x :: xs).length := by
  have := max_element.loop_lt xs 0 1 x Nat.zero_lt_one
  simp only [max_element, List.length_cons]
  omega

/-- One iteration of the loop of `PostProcess` on a buffer that starts with
a whole row `x, y, w, h, obj, cls`: the row is decoded when `obj` exceeds the
threshold and skipped otherwise, and the iterator moves to the next row.
The range given to `std::max_element` is `obj, cls`. -/
theorem TrtDetector.PostProcess.loop_row (conf_thresh x y w h obj : ℚ) (cls rest : List ℚ)
    (fuel : Nat) (dets : List Detection) :
    TrtDetector.PostProcess.loop (5 + cls.length) conf_thresh (fuel + 1)
        (x :: y :: w :: h :: obj :: (cls ++ rest)) dets =
      if obj > conf_thresh then
        TrtDetector.PostProcess.loop (5 + cls.length) conf_thresh fuel rest
          (dets ++ [⟨x, y, w, h, (obj :: cls).getD (max_element (obj :: cls)) 0 * obj,
            (max_element (obj :: cls) : ℚ)⟩])
      else TrtDetector.PostProcess.loop (5 + cls.length) conf_thresh fuel rest dets := by
  have hdrop : List.drop (5 + cls.length) (x :: y :: w :: h :: obj :: (cls ++ rest)) = rest := by
    have : x :: y :: w :: h :: obj :: (cls ++ rest) = (x :: y :: w :: h :: obj :: cls) ++ rest := rfl
    rw [this]
    exact List.drop_left' (by simp only [List.length_cons]; omega)
  have htake : List.take (5 + cls.length - 4)
      (List.drop 4 (x :: y :: w :: h :: obj :: (cls ++ rest))) = obj :: cls := by
    have : List.drop 4 (x :: y :: w :: h :: obj :: (cls ++ rest)) = (obj :: cls) ++ rest := rfl
    rw [this]
    exact List.take_left' (by simp; omega)
  have hidx : (x :: y :: w :: h :: obj :: (cls ++ rest))[4 + max_element (obj :: cls)]? =
      some ((obj :: cls).getD (max_element (obj :: cls)) 0) := by
    have hlt := max_element_lt obj cls
    have e : (x :: y :: w :: h :: obj :: (cls ++ rest))[4 + max_element (obj :: cls)]? =
        ((obj :: cls) ++ rest)[max_element (obj :: cls)]? := by
      rw [Nat.add_comm, show max_element (obj :: cls) + 4 = max_element (obj :: cls) + 1 + 1 + 1 + 1
        from rfl]
      simp only [List.getElem?_cons_succ]
      rfl
    rw [e, List.getElem?_append_left hlt, List.getD_eq_getElem?_getD, List.getElem?_eq_getElem hlt]
    rfl
  rw [TrtDetector.PostProcess.loop]
  rw [if_neg (by simp), if_neg (by simp; omega)]
  simp only [List.getElem?_cons_succ, List.getElem?_cons_zero]
  by_cases hobj : obj > conf_thresh
  · rw [if_pos hobj, if_pos hobj, if_neg (by omega)]
    simp only [htake, hdrop]
    rw [hidx]
  · rw [if_neg hobj, if_neg hobj, hdrop]

theorem length_flatten_rows (n : Nat) :
    ∀ rows : List (List ℚ), (∀ r ∈ rows, r.length = n) → rows.flatten.length = rows.length * n := by
  intro rows
  induction rows with
  | nil => intro _; simp
  | cons r rows ih =>
    intro h
    rw [List.flatten_cons, List.length_append, ih (fun r hr => h r (List.mem_cons_of_mem _ hr)),
      h r (List.mem_cons_self _ _), List.length_cons, Nat.succ_mul, Nat.add_comm]

/-- A row of length `5 + C` is `x, y, w, h, obj` followed by `C` class
scores. -/
theorem row_shape (C : Nat) (r : List ℚ) (hr : r.length = 5 + C) :
    ∃ x y w h obj cls, r = x :: y :: w :: h :: obj :: cls ∧ cls.length = C := by
  match r, hr with
  | x :: y :: w :: h :: obj :: cls, hr =>
    refine ⟨x, y, w, h, obj, cls, rfl, ?_⟩
    simp only [List.length_cons] at hr
    omega
  | [], hr | [_], hr | [_, _], hr | [_, _, _], hr | [_, _, _, _], hr =>
    simp only [List.length_cons, List.length_nil] at hr
    omega

/-- The loop of `PostProcess` on a buffer made of whole rows: it finishes,
and it appends the decoding of exactly the rows whose objectness exceeds the
threshold, in buffer order. -/
theorem TrtDetector.PostProcess.loop_rows (C : Nat) (conf_thresh : ℚ) :
    ∀ (rows : List (List ℚ)) (fuel : Nat) (dets : List Detection),
      (∀ r ∈ rows, r.length = 5 + C) → rows.length + 1 ≤ fuel →
      TrtDetector.PostProcess.loop (5 + C) conf_thresh fuel rows.flatten dets =
        some (dets ++ (rows.filter (fun r => decide (r.getD 4 0 > conf_thresh))).map
          TrtDetector.PostProcess.decode) := by
  intro rows
  induction rows with
  | nil =>
    intro fuel dets _ hf
    obtain ⟨n, rfl⟩ : ∃ n, fuel = n + 1 := ⟨fuel - 1, by omega⟩
    simp [TrtDetector.PostProcess.loop]
  | cons r rows ih =>
    intro fuel dets hrows hf
    obtain ⟨n, rfl⟩ : ∃ n, fuel = n + 1 := ⟨fuel - 1, by omega⟩
    obtain ⟨x, y, w, h, obj, cls, rfl, rfl⟩ := row_shape C r (hrows r (List.mem_cons_self _ _))
    have hrows' : ∀ r ∈ rows, r.length = 5 + cls.length :=
      fun r hr => hrows r (List.mem_cons_of_mem _ hr)
    have hn : rows.length + 1 ≤ n := by
      simp only [List.length_cons] at hf
      omega
    rw [List.flatten_cons]
    change TrtDetector.PostProcess.loop (5 + cls.length) conf_thresh (n + 1)
      (x :: y :: w :: h :: obj :: (cls ++ rows.flatten)) dets = _
    rw [TrtDetector.PostProcess.loop_row]
    by_cases hobj : obj > conf_thresh
    · rw [if_pos hobj, ih n _ hrows' hn, List.filter_cons_of_pos (by simpa using hobj)]
      simp [TrtDetector.PostProcess.decode]
    · rw [if_neg hobj, ih n _ hrows' hn, List.filter_cons_of_neg (by simpa using hobj)]

/-- The result of `PostProcess` on a buffer made of whole rows of length `5 + C`. -/
theorem TrtDetector.PostProcess_rows (C : Nat) (conf_thresh : ℚ) (rows : List (List ℚ))
    (hrows : ∀ r ∈ rows, r.length = 5 + C) :
    TrtDetector.PostProcess (5 + C) conf_thresh rows.flatten =
      some ((rows.filter (fun r => decide (r.getD 4 0 > conf_thresh))).map
        TrtDetector.PostProcess.decode) := by
  unfold TrtDetector.PostProcess
  rw [TrtDetector.PostProcess.loop_rows C conf_thresh rows _ [] hrows, List.nil_append]
  rw [length_flatten_rows (5 + C) rows hrows]
  have : rows.length * 1 ≤ rows.length * (5 + C) := Nat.mul_le_mul_left _ (by omega)
  omega

/-! ## Orchestrators and degenerate boxes in exact arithmetic -/

/-- The range-for loop of `FindGuidingLight` appends one light per key point,
in order. -/
theorem foldl_emplace_back {KeyPoint GuidingLight : Type} (light : KeyPoint → GuidingLight) :
    ∀ (key_points : List KeyPoint) (targets : List GuidingLight),
      key_points.foldl (fun targets kpt => targets ++ [light kpt]) targets =
        targets ++ key_points.map light := by
  intro key_points
  induction key_points with
  | nil => intro targets; simp
  | cons kpt rest ih =>
    intro targets
    rw [List.foldl_cons, ih, List.map_cons, List.append_assoc, List.singleton_append]

/-- The targets `GuidingLightDetector::Detect` returns are the lights of the
key points of this frame, whatever `targets_` held before. -/
theorem GuidingLightDetector.Detect_targets {Frame KeyPoint GuidingLight : Type}
    (detect : Frame → List KeyPoint → List KeyPoint) (light : KeyPoint → GuidingLight)
    (self : GuidingLightDetector KeyPoint GuidingLight) (frame : Frame) :
    (GuidingLightDetector.Detect detect light self frame).2 =
      (detect frame self.key_points_).map light := by
  simp only [GuidingLightDetector.Detect, GuidingLightDetector.FindGuidingLight]
  cases h : detect frame self.key_points_ with
  | nil => simp
  | cons kpt rest => simp [foldl_emplace_back]

/-- When the division of `IOU` is reached the intersection area is between 0
and the area of each box, for boxes of any size. -/
theorem IOU.inter_box_s_bounds (det1 det2 : Detection)
    (hv : ¬ IOU.top det1 det2 > IOU.bottom det1 det2)
    (hh : ¬ IOU.left det1 det2 > IOU.right det1 det2) :
    0 ≤ IOU.inter_box_s det1 det2 ∧ IOU.inter_box_s det1 det2 ≤ det1.w * det1.h ∧
      IOU.inter_box_s det1 det2 ≤ det2.w * det2.h := by
  have hx : 0 ≤ IOU.right det1 det2 - IOU.left det1 det2 := by linarith [not_lt.mp hh]
  have hy : 0 ≤ IOU.bottom det1 det2 - IOU.top det1 det2 := by linarith [not_lt.mp hv]
  refine ⟨IOU.inter_box_s_nonneg det1 det2 hv hh, ?_, ?_⟩
  · unfold IOU.inter_box_s
    exact mul_le_mul (IOU.width_le_left det1 det2) (IOU.height_le_left det1 det2) hy
      (hx.trans (IOU.width_le_left det1 det2))
  · unfold IOU.inter_box_s
    exact mul_le_mul (IOU.width_le_right det1 det2) (IOU.height_le_right det1 det2) hy
      (hx.trans (IOU.width_le_right det1 det2))

/-- In exact arithmetic: whenever the division at the end of `IOU` is
reached, the denominator is non-zero exactly when at least one of the two
boxes has a non-zero area. -/
theorem IOU.denominator_ne_zero_iff (det1 det2 : Detection)
    (hreach : ¬ (IOU.top det1 det2 > IOU.bottom det1 det2 ∨
      IOU.left det1 det2 > IOU.right det1 det2)) :
    IOU.denominator det1 det2 ≠ 0 ↔ (det1.w * det1.h ≠ 0 ∨ det2.w * det2.h ≠ 0) := by
  obtain ⟨h0, h1, h2⟩ := IOU.inter_box_s_bounds det1 det2 (fun h => hreach (Or.inl h))
    (fun h => hreach (Or.inr h))
  unfold IOU.denominator
  constructor
  · intro hd
    by_contra hc
    push_neg at hc
    obtain ⟨e1, e2⟩ := hc
    apply hd
    rw [e1] at h1
    rw [e1, e2]
    linarith
  · intro ha hd
    rcases ha with ha | ha
    · apply ha
      linarith
    · apply ha
      linarith

/-! ## Rounding -/

theorem roundHalfEven_intCast (n : ℤ) : roundHalfEven (n : ℚ) = n := by
  unfold roundHalfEven
  rw [Int.floor_intCast, if_pos (by norm_num)]

/-- A number strictly closer than one half to an integer rounds to it. -/
theorem roundHalfEven_of_near (n : ℤ) (y : ℚ) (h1 : (n : ℚ) - 1 / 2 < y) (h2 : y < n + 1 / 2) :
    roundHalfEven y = n := by
  unfold roundHalfEven
  by_cases hy : (n : ℚ) ≤ y
  · have hf : ⌊y⌋ = n := Int.floor_eq_iff.mpr ⟨hy, by linarith⟩
    rw [hf, if_pos (by linarith)]
  · have hf : ⌊y⌋ = n - 1 := Int.floor_eq_iff.mpr ⟨by push_cast; linarith, by push_cast; linarith⟩
    rw [hf, if_neg (by push_cast; linarith), if_pos (by push_cast; linarith)]
    ring

/-- A number halfway between two integers rounds to the even one. -/
theorem roundHalfEven_tie (n : ℤ) (y : ℚ) (h : y = n + 1 / 2) :
    roundHalfEven y = if n % 2 = 0 then n else n + 1 := by
  unfold roundHalfEven
  have hf : ⌊y⌋ = n := Int.floor_eq_iff.mpr ⟨by linarith, by linarith⟩
  rw [hf, if_neg (by rw [h]; norm_num), if_neg (by rw [h]; norm_num)]

theorem roundHalfEven_nonneg (y : ℚ) (hy : 0 ≤ y) : 0 ≤ roundHalfEven y := by
  have hf : 0 ≤ ⌊y⌋ := Int.floor_nonneg.mpr hy
  unfold roundHalfEven
  split_ifs <;> omega

/-- Rounding does not pass an integer bound. -/
theorem roundHalfEven_le (y : ℚ) (N : ℤ) (hy : y ≤ N) : roundHalfEven y ≤ N := by
  have hf : ⌊y⌋ ≤ N := Int.floor_le_iff.mpr (by linarith)
  by_cases he : ⌊y⌋ = N
  · have hyN : y = N := le_antisymm hy (by rw [← he]; exact Int.floor_le y)
    rw [hyN, roundHalfEven_intCast]
  · unfold roundHalfEven
    split_ifs <;> omega

/-- The binary logarithm of a number of the binade `[2 ^ k, 2 ^ (k + 1))`. -/
theorem log_two_eq_of_bounds {x : ℚ} {k : ℤ} (h1 : (2 : ℚ) ^ k ≤ x) (h2 : x < (2 : ℚ) ^ (k + 1)) :
    Int.log 2 x = k := by
  have hx : 0 < x := lt_of_lt_of_le (zpow_pos (by norm_num) k) h1
  have a : k ≤ Int.log 2 x := (Int.zpow_le_iff_le_log (by norm_num) hx).mp (by exact_mod_cast h1)
  have b : Int.log 2 x < k + 1 :=
    (Int.lt_zpow_iff_log_lt (by norm_num) hx).mp (by exact_mod_cast h2)
  omega

/-- Evaluation of the rounding of a number of the binade `[2 ^ k, 2 ^ (k + 1))`. -/
theorem Format.roundQ_eval (f : Format) (x : ℚ) (k n : ℤ) (h1 : (2 : ℚ) ^ k ≤ |x|)
    (h2 : |x| < (2 : ℚ) ^ (k + 1))
    (hn : roundHalfEven (x / 2 ^ max (k - ((f.prec : ℤ) - 1)) f.emin) = n) :
    f.roundQ x = n * 2 ^ max (k - ((f.prec : ℤ) - 1)) f.emin := by
  unfold Format.roundQ Format.ulpExp
  rw [log_two_eq_of_bounds h1 h2, hn]

/-- The rounding is a finite value when it does not exceed the largest
finite number. -/
theorem Format.round_eq_fin (f : Format) (x r : ℚ) (hr : f.roundQ x = r)
    (hmax : |r| ≤ f.maxFinite) : f.round x = FVal.fin r := by
  unfold Format.round
  rw [hr, if_neg (by linarith [le_abs_self r]), if_neg (by linarith [neg_abs_le r])]

/-- A number `m * 2 ^ e` with `|m| < 2 ^ prec` and `emin ≤ e` belongs to the
format: rounding does not change it. -/
theorem Format.roundQ_exact (f : Format) (x : ℚ) (m e : ℤ) (hx : x = m * (2 : ℚ) ^ e)
    (hm : |m| < 2 ^ f.prec) (he : f.emin ≤ e) : f.roundQ x = x := by
  by_cases h0 : x = 0
  · unfold Format.roundQ
    rw [h0, zero_div, show (0 : ℚ) = ((0 : ℤ) : ℚ) from by norm_num, roundHalfEven_intCast]
    norm_num
  · have hxpos : 0 < |x| := abs_pos.mpr h0
    have hlt : |x| < (2 : ℚ) ^ ((f.prec : ℤ) + e) := by
      rw [hx, abs_mul, abs_of_pos (zpow_pos (by norm_num : (0 : ℚ) < 2) e),
        zpow_add₀ (by norm_num : (2 : ℚ) ≠ 0), zpow_natCast]
      apply mul_lt_mul_of_pos_right _ (zpow_pos (by norm_num) e)
      have : ((|m| : ℤ) : ℚ) < ((2 ^ f.prec : ℤ) : ℚ) := Int.cast_lt.mpr hm
      rw [Int.cast_abs] at this
      simpa using this
    have hlog : Int.log 2 |x| < (f.prec : ℤ) + e :=
      (Int.lt_zpow_iff_log_lt (by norm_num) hxpos).mp (by exact_mod_cast hlt)
    have hu : f.ulpExp x ≤ e := by
      unfold Format.ulpExp
      exact max_le (by omega) he
    obtain ⟨u, hudef⟩ : ∃ u, u = f.ulpExp x := ⟨_, rfl⟩
    rw [← hudef] at hu
    obtain ⟨d, hd⟩ : ∃ d : ℕ, e = u + d :=
      ⟨(e - u).toNat, by rw [Int.toNat_of_nonneg (by omega)]; ring⟩
    have hp : (2 : ℚ) ^ u ≠ 0 := (zpow_pos (by norm_num) u).ne'
    have hdiv : x / 2 ^ u = ((m * 2 ^ d : ℤ) : ℚ) := by
      rw [hx, hd, zpow_add₀ (by norm_num : (2 : ℚ) ≠ 0), zpow_natCast]
      push_cast
      field_simp
      ring
    unfold Format.roundQ
    rw [← hudef, hdiv, roundHalfEven_intCast, ← hdiv]
    field_simp

theorem Format.round_exact (f : Format) (x : ℚ) (m e : ℤ) (hx : x = m * (2 : ℚ) ^ e)
    (hm : |m| < 2 ^ f.prec) (he : f.emin ≤ e) (hmax : |x| ≤ f.maxFinite) :
    f.round x = FVal.fin x :=
  f.round_eq_fin x x (f.roundQ_exact x m e hx hm he) hmax

theorem F32.round_zero : F32.round 0 = FVal.fin 0 :=
  F32.round_exact 0 0 0 (by norm_num) (by norm_num) (by norm_num [F32]) (by norm_num [F32])

theorem F32.round_one : F32.round 1 = FVal.fin 1 :=
  F32.round_exact 1 1 0 (by norm_num) (by norm_num [F32]) (by norm_num [F32]) (by norm_num [F32])

/-- The rounding to `float` of a number of the interval [0, 1] is a finite
number of that interval. -/
theorem F32.round_unit_interval (q : ℚ) (h0 : 0 ≤ q) (h1 : q ≤ 1) :
    ∃ r, F32.round q = FVal.fin r ∧ 0 ≤ r ∧ r ≤ 1 := by
  have hu : F32.ulpExp q ≤ 0 := by
    unfold Format.ulpExp
    apply max_le _ (by norm_num [F32])
    rcases eq_or_lt_of_le h0 with h | h
    · rw [← h, abs_zero, Int.log_zero_right]
      norm_num [F32]
    · have : Int.log 2 |q| < 1 :=
        (Int.lt_zpow_iff_log_lt (by norm_num) (abs_pos.mpr h.ne')).mp
          (by rw [abs_of_pos h]; norm_num; linarith)
      norm_num [F32]
      omega
  obtain ⟨d, hd⟩ : ∃ d : ℕ, F32.ulpExp q = -(d : ℤ) :=
    ⟨(-F32.ulpExp q).toNat, by rw [Int.toNat_of_nonneg (by omega)]; ring⟩
  have hpow : (2 : ℚ) ^ F32.ulpExp q = 1 / 2 ^ d := by
    rw [hd, zpow_neg, zpow_natCast, one_div]
  have hp : (0 : ℚ) < 2 ^ d := pow_pos (by norm_num) d
  have hle : roundHalfEven (q / 2 ^ F32.ulpExp q) ≤ (2 ^ d : ℤ) := by
    apply roundHalfEven_le
    rw [hpow]
    push_cast
    rw [div_div_eq_mul_div, div_one]
    exact mul_le_of_le_one_left hp.le h1
  have hge : 0 ≤ roundHalfEven (q / 2 ^ F32.ulpExp q) := by
    apply roundHalfEven_nonneg
    exact div_nonneg h0 (zpow_pos (by norm_num) _).le
  have hr0 : 0 ≤ F32.roundQ q := by
    unfold Format.roundQ
    exact mul_nonneg (by exact_mod_cast hge) (zpow_pos (by norm_num) _).le
  have hr1 : F32.roundQ q ≤ 1 := by
    unfold Format.roundQ
    rw [hpow]
    have : ((roundHalfEven (q / 2 ^ F32.ulpExp q) : ℤ) : ℚ) ≤ ((2 ^ d : ℤ) : ℚ) :=
      Int.cast_le.mpr hle
    push_cast at this
    rw [hpow] at this
    rw [mul_one_div, div_le_one hp]
    exact this
  refine ⟨F32.roundQ q, F32.round_eq_fin q _ rfl ?_, hr0, hr1⟩
  rw [abs_of_nonneg hr0]
  exact hr1.trans (by norm_num [F32])

/-! ## The binary floating-point `IOU` -/

theorem Format.add_fin (f : Format) (x y : ℚ) :
    f.add (FVal.fin x) (FVal.fin y) = f.round (x + y) := rfl

theorem Format.sub_fin (f : Format) (x y : ℚ) :
    f.sub (FVal.fin x) (FVal.fin y) = f.round (x - y) := by
  rw [sub_eq_add_neg]
  rfl

theorem Format.mul_fin (f : Format) (x y : ℚ) :
    f.mul (FVal.fin x) (FVal.fin y) = f.round (x * y) := rfl

theorem Format.div_fin (f : Format) (x y : ℚ) (hy : y ≠ 0) :
    f.div (FVal.fin x) (FVal.fin y) = f.round (x / y) := by
  show (if y = 0 then _ else f.round (x / y)) = _
  rw [if_neg hy]

theorem FVal.gt_fin (x y : ℚ) : FVal.gt (FVal.fin x) (FVal.fin y) = decide (y < x) := rfl

theorem IOU_f32_eq (det1 det2 : Detection) :
    IOU_f32 det1 det2 =
      if IOU_f32.earlyReturn det1 det2 then FVal.fin 0
      else F32.div (IOU_f32.inter_box_s det1 det2) (IOU_f32.denominator det1 det2) := rfl

/-- When the intermediate values carry no rounding error the program takes
the early return exactly when the exact edges satisfy its test. -/
theorem IOU_f32.earlyReturn_of_exact (det1 det2 : Detection) (hex : IOU_f32.Exact det1 det2) :
    IOU_f32.earlyReturn det1 det2 = true ↔
      (IOU.top det1 det2 > IOU.bottom det1 det2 ∨ IOU.left det1 det2 > IOU.right det1 det2) := by
  obtain ⟨hl, hr, ht, hb, _⟩ := hex
  unfold IOU_f32.earlyReturn
  rw [hl, hr, ht, hb, FVal.gt_fin, FVal.gt_fin]
  simp

/-- When the intermediate values carry no rounding error and the boxes have
positive width and height, the program returns the `float` nearest to the
exact value of `IOU`. -/
theorem IOU_f32_of_exact (det1 det2 : Detection) (hw1 : 0 < det1.w) (hh1 : 0 < det1.h)
    (hw2 : 0 < det2.w) (hex : IOU_f32.Exact det1 det2) :
    IOU_f32 det1 det2 = F32.round (IOU det1 det2) := by
  have hearly := IOU_f32.earlyReturn_of_exact det1 det2 hex
  obtain ⟨_, _, _, _, hid⟩ := hex
  rw [IOU_f32_eq]
  unfold IOU
  by_cases hc : IOU.top det1 det2 > IOU.bottom det1 det2 ∨ IOU.left det1 det2 > IOU.right det1 det2
  · rw [if_pos (hearly.mpr hc), if_pos hc, F32.round_zero]
  · have hne : ¬ IOU_f32.earlyReturn det1 det2 = true := fun h => hc (hearly.mp h)
    have hpos := IOU.denominator_pos det1 det2 hw1 hh1 hw2 (fun hv => hc (Or.inl hv))
    obtain ⟨hi, hd⟩ := hid (Bool.eq_false_iff.mpr hne)
    rw [if_neg hne, if_neg hc, hi, hd, Format.div_fin _ _ _ hpos.ne']
theorem FVal.toF32_fin (x : ℚ) : FVal.toF32 (FVal.fin x) = F32.round x := rfl

theorem FVal.max_fin (x y : ℚ) : FVal.max (FVal.fin x) (FVal.fin y) = FVal.fin (Max.max x y) := by
  unfold FVal.max FVal.lt
  by_cases h : x < y
  · simp [h, max_eq_right h.le]
  · simp [h, max_eq_left (not_lt.mp h)]

theorem FVal.min_fin (x y : ℚ) : FVal.min (FVal.fin x) (FVal.fin y) = FVal.fin (Min.min x y) := by
  unfold FVal.min FVal.lt
  by_cases h : y < x
  · simp [h, min_eq_right h.le]
  · simp [h, min_eq_left (not_lt.mp h)]

theorem F32.round_int (n : ℤ) (hn : |n| < 2 ^ 24) : F32.round (n : ℚ) = FVal.fin n := by
  apply F32.round_exact (n : ℚ) n 0 (by simp) hn (by norm_num [F32])
  have : ((|n| : ℤ) : ℚ) < ((2 ^ 24 : ℤ) : ℚ) := Int.cast_lt.mpr hn
  rw [Int.cast_abs] at this
  norm_num [F32] at this ⊢
  linarith

theorem F64.round_int_double (n : ℤ) (hn : |n| < 2 ^ 53) : F64.round (n : ℚ) = FVal.fin n := by
  apply F64.round_exact (n : ℚ) n 0 (by simp) hn (by norm_num [F64])
  have : ((|n| : ℤ) : ℚ) < ((2 ^ 53 : ℤ) : ℚ) := Int.cast_lt.mpr hn
  rw [Int.cast_abs] at this
  norm_num [F64] at this ⊢
  linarith

/-- The boxes (0, 0, 2, 2) and (1, 0, 2, 2): every intermediate value of
`IOU` is a small integer and is computed without rounding error. -/
theorem IOU_f32.exact_overlapping_pair :
    IOU_f32.Exact ⟨0, 0, 2, 2, 1/2, 0⟩ ⟨1, 0, 2, 2, 3/4, 0⟩ := by
  have d0 : F64.round 0 = FVal.fin 0 := by simpa using F64.round_int_double 0 (by norm_num)
  have d1 : F64.round 1 = FVal.fin 1 := by simpa using F64.round_int_double 1 (by norm_num)
  have d2 : F64.round 2 = FVal.fin 2 := by simpa using F64.round_int_double 2 (by norm_num)
  have dm1 : F64.round (-1) = FVal.fin (-1) := by simpa using F64.round_int_double (-1) (by norm_num)
  have s0 : F32.round 0 = FVal.fin 0 := by simpa using F32.round_int 0 (by norm_num)
  have s1 : F32.round 1 = FVal.fin 1 := by simpa using F32.round_int 1 (by norm_num)
  have s2 : F32.round 2 = FVal.fin 2 := by simpa using F32.round_int 2 (by norm_num)
  have s4 : F32.round 4 = FVal.fin 4 := by simpa using F32.round_int 4 (by norm_num)
  have s6 : F32.round 6 = FVal.fin 6 := by simpa using F32.round_int 6 (by norm_num)
  have s8 : F32.round 8 = FVal.fin 8 := by simpa using F32.round_int 8 (by norm_num)
  have sm1 : F32.round (-1) = FVal.fin (-1) := by simpa using F32.round_int (-1) (by norm_num)
  have hl : IOU_f32.left ⟨0, 0, 2, 2, 1/2, 0⟩ ⟨1, 0, 2, 2, 3/4, 0⟩ = FVal.fin 0 := by
    norm_num [IOU_f32.left, Format.sub_fin, Format.div_fin, FVal.max_fin, FVal.toF32_fin,
      d0, d1, dm1, s0]
  have hr : IOU_f32.right ⟨0, 0, 2, 2, 1/2, 0⟩ ⟨1, 0, 2, 2, 3/4, 0⟩ = FVal.fin 1 := by
    norm_num [IOU_f32.right, Format.add_fin, Format.div_fin, FVal.min_fin, FVal.toF32_fin,
      d1, d2, s1]
  have ht : IOU_f32.top ⟨0, 0, 2, 2, 1/2, 0⟩ ⟨1, 0, 2, 2, 3/4, 0⟩ = FVal.fin (-1) := by
    norm_num [IOU_f32.top, Format.sub_fin, Format.div_fin, FVal.max_fin, FVal.toF32_fin,
      d1, dm1, sm1]
  have hb : IOU_f32.bottom ⟨0, 0, 2, 2, 1/2, 0⟩ ⟨1, 0, 2, 2, 3/4, 0⟩ = FVal.fin 1 := by
    norm_num [IOU_f32.bottom, Format.add_fin, Format.div_fin, FVal.min_fin, FVal.toF32_fin,
      d1, s1]
  have hi : IOU_f32.inter_box_s ⟨0, 0, 2, 2, 1/2, 0⟩ ⟨1, 0, 2, 2, 3/4, 0⟩ = FVal.fin 2 := by
    rw [IOU_f32.inter_box_s, hl, hr, ht, hb]
    norm_num [Format.sub_fin, Format.mul_fin, s1, s2]
  have hd : IOU_f32.denominator ⟨0, 0, 2, 2, 1/2, 0⟩ ⟨1, 0, 2, 2, 3/4, 0⟩ = FVal.fin 6 := by
    rw [IOU_f32.denominator, hi]
    norm_num [Format.sub_fin, Format.mul_fin, Format.add_fin, s4, s8, s6]
  refine ⟨?_, ?_, ?_, ?_, fun _ => ⟨?_, ?_⟩⟩
  · rw [hl]; norm_num [IOU.left]
  · rw [hr]; norm_num [IOU.right]
  · rw [ht]; norm_num [IOU.top]
  · rw [hb]; norm_num [IOU.bottom]
  · rw [hi]; norm_num [IOU.inter_box_s, IOU.left, IOU.right, IOU.top, IOU.bottom]
  · rw [hd]
    norm_num [IOU.denominator, IOU.inter_box_s, IOU.left, IOU.right, IOU.top, IOU.bottom]

/-- Evaluation of the rounding of a number of the binade `[2 ^ k, 2 ^ (k + 1))`
whose unit in the last place is `2 ^ u`. -/
theorem Format.round_eval (f : Format) (x : ℚ) (k n u : ℤ) (h1 : (2 : ℚ) ^ k ≤ |x|)
    (h2 : |x| < (2 : ℚ) ^ (k + 1)) (hu : max (k - ((f.prec : ℤ) - 1)) f.emin = u)
    (hn : roundHalfEven (x / 2 ^ u) = n) (hmax : |(n : ℚ) * 2 ^ u| ≤ f.maxFinite) :
    f.round x = FVal.fin (n * 2 ^ u) := by
  apply f.round_eq_fin x _ _ hmax
  rw [f.roundQ_eval x k n h1 h2 (by rw [hu]; exact hn), hu]

/-- Narrowing of 8388609.5 to `float`: the neighbours are 8388609 and
8388610, and the tie goes to the even one. -/
theorem F32.round_8388609_5 : F32.round (16777219 / 2) = FVal.fin 8388610 := by
  have h := F32.round_eval (16777219 / 2) 23 8388610 0 (by norm_num [abs_of_pos])
    (by norm_num [abs_of_pos]) (by norm_num [F32])
    (by rw [roundHalfEven_tie 8388609 _ (by norm_num)]; norm_num)
    (by norm_num [F32, abs_of_pos])
  norm_num at h
  exact h

/-- Narrowing of 16777217 to `float`: the neighbours are 16777216 and
16777218, and the tie goes to the one with the even significand. -/
theorem F32.round_16777217 : F32.round 16777217 = FVal.fin 16777216 := by
  have h := F32.round_eval 16777217 24 8388608 1 (by norm_num [abs_of_pos])
    (by norm_num [abs_of_pos]) (by norm_num [F32])
    (by rw [roundHalfEven_tie 8388608 _ (by norm_num)]; norm_num)
    (by norm_num [F32, abs_of_pos])
  norm_num at h
  exact h

/-- Narrowing of 16777219 to `float`: the neighbours are 16777218 and
16777220, and the tie goes to the one with the even significand. -/
theorem F32.round_16777219 : F32.round 16777219 = FVal.fin 16777220 := by
  have h := F32.round_eval 16777219 24 8388610 1 (by norm_num [abs_of_pos])
    (by norm_num [abs_of_pos]) (by norm_num [F32])
    (by rw [roundHalfEven_tie 8388609 _ (by norm_num)]; norm_num)
    (by norm_num [F32, abs_of_pos])
  norm_num at h
  exact h

/-- The quotient 7 / 5 in `float` is 11744051 / 2 ^ 23, about 1.39999998. -/
theorem F32.round_7_div_5 : F32.round (7 / 5) = FVal.fin (11744051 / 8388608) := by
  have h := F32.round_eval (7 / 5) 0 11744051 (-23) (by norm_num [abs_of_pos])
    (by norm_num [abs_of_pos]) (by norm_num [F32])
    (roundHalfEven_of_near 11744051 _ (by norm_num) (by norm_num))
    (by norm_num [F32, abs_of_pos])
  norm_num at h
  exact h

/-- The product of 2 ^ -76 with itself underflows to 0 in `float`. -/
theorem F32.round_underflow : F32.round (2 ^ (-152 : ℤ)) = FVal.fin 0 := by
  have h := F32.round_eval (2 ^ (-152 : ℤ)) (-152) 0 (-149) (by norm_num [abs_of_pos])
    (by norm_num [abs_of_pos]) (by norm_num [F32])
    (roundHalfEven_of_near 0 _ (by norm_num) (by norm_num))
    (by norm_num [F32, abs_of_pos])
  norm_num at h ⊢
  exact h

/-! ## Symmetry and touching boxes in binary floating point -/

theorem Format.round_ne_nan (f : Format) (x : ℚ) : f.round x ≠ FVal.nan := by
  unfold Format.round
  split_ifs <;> simp

theorem Format.add_swap (f : Format) (a b : FVal) : f.add a b = f.add b a := by
  cases a <;> cases b <;> simp [Format.add, add_comm]

theorem FVal.max_swap (a b : FVal) (ha : a ≠ FVal.nan) (hb : b ≠ FVal.nan) :
    FVal.max a b = FVal.max b a := by
  cases a <;> cases b <;> simp_all [FVal.max, FVal.lt]
  rename_i x y
  rcases lt_trichotomy x y with h | h | h
  · simp [h, not_lt.mpr h.le]
  · simp [h]
  · simp [h, not_lt.mpr h.le]

theorem FVal.min_swap (a b : FVal) (ha : a ≠ FVal.nan) (hb : b ≠ FVal.nan) :
    FVal.min a b = FVal.min b a := by
  cases a <;> cases b <;> simp_all [FVal.min, FVal.lt]
  rename_i x y
  rcases lt_trichotomy x y with h | h | h
  · simp [h, not_lt.mpr h.le]
  · simp [h]
  · simp [h, not_lt.mpr h.le]

/-- The `double` value of `x - w / 2.` is never NaN. -/
theorem F64.edge_sub_ne_nan (x w : ℚ) :
    F64.sub (FVal.fin x) (F64.div (FVal.fin w) (FVal.fin 2)) ≠ FVal.nan := by
  rw [Format.div_fin _ _ _ (by norm_num)]
  unfold Format.round
  split_ifs
  · simp [Format.sub, FVal.neg, Format.add]
  · simp [Format.sub, FVal.neg, Format.add]
  · rw [Format.sub_fin]
    exact Format.round_ne_nan _ _

/-- The `double` value of `x + w / 2.` is never NaN. -/
theorem F64.edge_add_ne_nan (x w : ℚ) :
    F64.add (FVal.fin x) (F64.div (FVal.fin w) (FVal.fin 2)) ≠ FVal.nan := by
  rw [Format.div_fin _ _ _ (by norm_num)]
  unfold Format.round
  split_ifs
  · simp [Format.add]
  · simp [Format.add]
  · rw [Format.add_fin]
    exact Format.round_ne_nan _ _

theorem IOU_f32.left_swap (det1 det2 : Detection) :
    IOU_f32.left det1 det2 = IOU_f32.left det2 det1 := by
  unfold IOU_f32.left
  rw [FVal.max_swap _ _ (F64.edge_sub_ne_nan _ _) (F64.edge_sub_ne_nan _ _)]

theorem IOU_f32.right_swap (det1 det2 : Detection) :
    IOU_f32.right det1 det2 = IOU_f32.right det2 det1 := by
  unfold IOU_f32.right
  rw [FVal.min_swap _ _ (F64.edge_add_ne_nan _ _) (F64.edge_add_ne_nan _ _)]

theorem IOU_f32.top_swap (det1 det2 : Detection) :
    IOU_f32.top det1 det2 = IOU_f32.top det2 det1 := by
  unfold IOU_f32.top
  rw [FVal.max_swap _ _ (F64.edge_sub_ne_nan _ _) (F64.edge_sub_ne_nan _ _)]

theorem IOU_f32.bottom_swap (det1 det2 : Detection) :
    IOU_f32.bottom det1 det2 = IOU_f32.bottom det2 det1 := by
  unfold IOU_f32.bottom
  rw [FVal.min_swap _ _ (F64.edge_add_ne_nan _ _) (F64.edge_add_ne_nan _ _)]

/-- The value the program computes for `IOU` does not depend on the order
of its arguments. -/
theorem IOU_f32_swap (det1 det2 : Detection) : IOU_f32 det1 det2 = IOU_f32 det2 det1 := by
  simp only [IOU_f32, IOU_f32.inter_box_s, IOU_f32.denominator,
    IOU_f32.left_swap det1 det2, IOU_f32.right_swap det1 det2, IOU_f32.top_swap det1 det2,
    IOU_f32.bottom_swap det1 det2,
    F32.add_swap (F32.mul (FVal.fin det1.w) (FVal.fin det1.h))]

theorem Format.sub_self_zero_or_nan (f : Format) (h0 : f.round 0 = FVal.fin 0) (v : FVal) :
    f.sub v v = FVal.fin 0 ∨ f.sub v v = FVal.nan := by
  cases v with
  | fin x => left; rw [Format.sub_fin, sub_self, h0]
  | posInf => right; rfl
  | negInf => right; rfl
  | nan => right; rfl

theorem Format.mul_zero_or_nan_left (f : Format) (h0 : f.round 0 = FVal.fin 0) (a b : FVal)
    (ha : a = FVal.fin 0 ∨ a = FVal.nan) :
    f.mul a b = FVal.fin 0 ∨ f.mul a b = FVal.nan := by
  rcases ha with rfl | rfl
  · cases b with
    | fin y => left; rw [Format.mul_fin, zero_mul, h0]
    | posInf => right; simp [Format.mul]
    | negInf => right; simp [Format.mul]
    | nan => right; rfl
  · right
    cases b <;> rfl

theorem Format.mul_zero_or_nan_right (f : Format) (h0 : f.round 0 = FVal.fin 0) (a b : FVal)
    (hb : b = FVal.fin 0 ∨ b = FVal.nan) :
    f.mul a b = FVal.fin 0 ∨ f.mul a b = FVal.nan := by
  rcases hb with rfl | rfl
  · cases a with
    | fin x => left; rw [Format.mul_fin, mul_zero, h0]
    | posInf => right; simp [Format.mul]
    | negInf => right; simp [Format.mul]
    | nan => right; rfl
  · right
    cases a <;> rfl

theorem Format.div_zero_or_nan (f : Format) (h0 : f.round 0 = FVal.fin 0) (a d : FVal)
    (ha : a = FVal.fin 0 ∨ a = FVal.nan) :
    f.div a d = FVal.fin 0 ∨ f.div a d = FVal.nan := by
  rcases ha with rfl | rfl
  · cases d with
    | fin y =>
      by_cases hy : y = 0
      · right; simp [Format.div, hy]
      · left; rw [Format.div_fin _ _ _ hy, zero_div, h0]
    | posInf => left; rfl
    | negInf => left; rfl
    | nan => right; rfl
  · right
    cases d <;> rfl

/-- When the `float` edges of the intersection satisfy `right = left` or
`bottom = top`, the program returns 0, or NaN when the division is 0 / 0
or an operand is not finite. -/
theorem IOU_f32_touching (det1 det2 : Detection)
    (ht : IOU_f32.right det1 det2 = IOU_f32.left det1 det2 ∨
      IOU_f32.bottom det1 det2 = IOU_f32.top det1 det2) :
    IOU_f32 det1 det2 = FVal.fin 0 ∨ IOU_f32 det1 det2 = FVal.nan := by
  rw [IOU_f32_eq]
  split_ifs
  · exact Or.inl rfl
  · apply Format.div_zero_or_nan _ F32.round_zero
    unfold IOU_f32.inter_box_s
    rcases ht with h | h
    · rw [h]
      exact Format.mul_zero_or_nan_left _ F32.round_zero _ _
        (Format.sub_self_zero_or_nan _ F32.round_zero _)
    · rw [h]
      exact Format.mul_zero_or_nan_right _ F32.round_zero _ _
        (Format.sub_self_zero_or_nan _ F32.round_zero _)

/-- A value that is 0 or NaN is not greater than a threshold that is not
negative. -/
theorem FVal.not_gt_of_zero_or_nan (v : FVal) (t : ℚ) (ht : 0 ≤ t)
    (hv : v = FVal.fin 0 ∨ v = FVal.nan) : FVal.gt v (FVal.fin t) = false := by
  rcases hv with rfl | rfl
  · simp [FVal.gt, FVal.lt, not_lt.mpr ht]
  · rfl

/-! ## `NonMaxSuppression` in binary floating point on two detections -/

theorem eraseLoop_f32_unfold (highest : Detection) (nms_thresh : ℚ) (fuel it : Nat)
    (dets erased : List Detection) (hf : 0 < fuel) :
    eraseLoop_f32 highest nms_thresh fuel it dets erased =
      if it = dets.length then ⟨dets, erased, Status.finished⟩
      else
        match dets[it]? with
        | none => ⟨dets, erased, Status.pastEnd⟩
        | some d =>
          if FVal.gt (IOU_f32 highest d) (FVal.fin nms_thresh) then
            eraseLoop_f32 highest nms_thresh (fuel - 1) (it + 1) (dets.eraseIdx it) (erased ++ [d])
          else
            eraseLoop_f32 highest nms_thresh (fuel - 1) (it + 1) dets erased := by
  cases fuel with
  | zero => omega
  | succ n => rfl

theorem whileLoop_f32_unfold (nms_thresh : ℚ) (fuel : Nat) (dets keep : List Detection)
    (suppressed : List (Detection × Detection)) (hf : 0 < fuel) :
    whileLoop_f32 nms_thresh fuel dets keep suppressed =
      match dets.getLast? with
      | none => ⟨keep, suppressed, Status.finished⟩
      | some highest =>
        match (eraseLoop_f32 highest nms_thresh (dets.dropLast.length + 1) 0
          dets.dropLast []).status with
        | Status.finished =>
          whileLoop_f32 nms_thresh (fuel - 1)
            (eraseLoop_f32 highest nms_thresh (dets.dropLast.length + 1) 0 dets.dropLast []).dets
            (keep ++ [highest])
            (suppressed ++
              (eraseLoop_f32 highest nms_thresh (dets.dropLast.length + 1) 0
                dets.dropLast []).erased.map (fun d => (highest, d)))
        | s =>
          ⟨keep ++ [highest],
            suppressed ++
              (eraseLoop_f32 highest nms_thresh (dets.dropLast.length + 1) 0
                dets.dropLast []).erased.map (fun d => (highest, d)), s⟩ := by
  cases fuel with
  | zero => omega
  | succ n => rfl

/-- The outer loop on an ascending two-element vector `[lo, hi]`, with the
test evaluated in binary floating point. -/
theorem whileLoop_f32_pair (nms_thresh : ℚ) (lo hi : Detection) :
    whileLoop_f32 nms_thresh 3 [lo, hi] [] [] =
      if FVal.gt (IOU_f32 hi lo) (FVal.fin nms_thresh) then ⟨[hi], [(hi, lo)], Status.pastEnd⟩
      else ⟨[hi, lo], [], Status.finished⟩ := by
  by_cases h : FVal.gt (IOU_f32 hi lo) (FVal.fin nms_thresh) = true
  · simp [whileLoop_f32_unfold, eraseLoop_f32_unfold, h]
  · simp [whileLoop_f32_unfold, eraseLoop_f32_unfold, h]

theorem NonMaxSuppressionRun_f32_pair (a b : Detection) (nms_thresh : ℚ) :
    NonMaxSuppressionRun_f32 [a, b] nms_thresh =
      if a.conf ≤ b.conf then
        (if FVal.gt (IOU_f32 b a) (FVal.fin nms_thresh) then ⟨[b], [(b, a)], Status.pastEnd⟩
         else ⟨[b, a], [], Status.finished⟩)
      else
        (if FVal.gt (IOU_f32 a b) (FVal.fin nms_thresh) then ⟨[a], [(a, b)], Status.pastEnd⟩
         else ⟨[a, b], [], Status.finished⟩) := by
  unfold NonMaxSuppressionRun_f32
  rw [if_neg (by simp), sortByConf_pair]
  by_cases hc : a.conf ≤ b.conf
  · rw [if_pos hc, if_pos hc]
    exact whileLoop_f32_pair nms_thresh a b
  · rw [if_neg hc, if_neg hc]
    exact whileLoop_f32_pair nms_thresh b a

/-- On a two-element vector whose `IOU` is not greater than the threshold
the call finishes and keeps both detections, the one of higher confidence
first. -/
theorem NonMaxSuppression_f32_pair_keep (a b : Detection) (nms_thresh : ℚ)
    (h : FVal.gt (IOU_f32 a b) (FVal.fin nms_thresh) = false) :
    NonMaxSuppression_f32 [a, b] nms_thresh =
      some (if a.conf ≤ b.conf then [b, a] else [a, b]) := by
  have h' : FVal.gt (IOU_f32 b a) (FVal.fin nms_thresh) = false := by rwa [IOU_f32_swap]
  unfold NonMaxSuppression_f32
  rw [NonMaxSuppressionRun_f32_pair]
  by_cases hc : a.conf ≤ b.conf
  · simp [hc, h']
  · simp [hc, h]

/-- On a two-element vector whose `IOU` is greater than the threshold the
inner loop erases the detection of lower confidence and then reads past the
end. -/
theorem NonMaxSuppression_f32_pair_erase (a b : Detection) (nms_thresh : ℚ)
    (h : FVal.gt (IOU_f32 a b) (FVal.fin nms_thresh) = true) :
    NonMaxSuppression_f32 [a, b] nms_thresh = none ∧
      (NonMaxSuppressionRun_f32 [a, b] nms_thresh).suppressed =
        (if a.conf ≤ b.conf then [(b, a)] else [(a, b)]) := by
  have h' : FVal.gt (IOU_f32 b a) (FVal.fin nms_thresh) = true := by rwa [IOU_f32_swap]
  unfold NonMaxSuppression_f32
  rw [NonMaxSuppressionRun_f32_pair]
  by_cases hc : a.conf ≤ b.conf
  · simp [hc, h']
  · simp [hc, h]

/-! ## Runs of the binary floating-point `IOU` on concrete boxes -/

theorem F32.round_half_int (m : ℤ) (hm : |m| < 2 ^ 24) :
    F32.round ((m : ℚ) / 2) = FVal.fin ((m : ℚ) / 2) := by
  have hq : |(m : ℚ)| < 2 ^ 24 := by
    have : ((|m| : ℤ) : ℚ) < ((2 ^ 24 : ℤ) : ℚ) := Int.cast_lt.mpr hm
    rw [Int.cast_abs] at this
    exact_mod_cast this
  apply F32.round_exact _ m (-1) (by norm_num; ring) hm (by norm_num [F32])
  rw [abs_div, abs_of_pos (by norm_num : (0 : ℚ) < 2)]
  norm_num [F32]
  linarith

theorem F64.round_half_int_double (m : ℤ) (hm : |m| < 2 ^ 53) :
    F64.round ((m : ℚ) / 2) = FVal.fin ((m : ℚ) / 2) := by
  have hq : |(m : ℚ)| < 2 ^ 53 := by
    have : ((|m| : ℤ) : ℚ) < ((2 ^ 53 : ℤ) : ℚ) := Int.cast_lt.mpr hm
    rw [Int.cast_abs] at this
    exact_mod_cast this
  apply F64.round_exact _ m (-1) (by norm_num; ring) hm (by norm_num [F64])
  rw [abs_div, abs_of_pos (by norm_num : (0 : ℚ) < 2)]
  norm_num [F64]
  linarith


/-- The box (8388608, 0, 3, 2) against itself: the edge 8388609.5 is
narrowed to 8388610, so the intersection is 3.5 wide and has area 7, the
denominator is 6 + 6 - 7 = 5, and the program returns the `float` nearest to
7 / 5. -/
theorem IOU_f32_at_8388608 :
    IOU_f32.left ⟨8388608, 0, 3, 2, 1/2, 0⟩ ⟨8388608, 0, 3, 2, 1/2, 0⟩ = FVal.fin (16777213 / 2) ∧
    IOU_f32.right ⟨8388608, 0, 3, 2, 1/2, 0⟩ ⟨8388608, 0, 3, 2, 1/2, 0⟩ = FVal.fin 8388610 ∧
    IOU_f32.inter_box_s ⟨8388608, 0, 3, 2, 1/2, 0⟩ ⟨8388608, 0, 3, 2, 1/2, 0⟩ = FVal.fin 7 ∧
    IOU_f32.denominator ⟨8388608, 0, 3, 2, 1/2, 0⟩ ⟨8388608, 0, 3, 2, 1/2, 0⟩ = FVal.fin 5 ∧
    IOU_f32 ⟨8388608, 0, 3, 2, 1/2, 0⟩ ⟨8388608, 0, 3, 2, 1/2, 0⟩ =
      FVal.fin (11744051 / 8388608) := by
  have d1 : F64.round 1 = FVal.fin 1 := by simpa using F64.round_int_double 1 (by norm_num)
  have dm1 : F64.round (-1) = FVal.fin (-1) := by simpa using F64.round_int_double (-1) (by norm_num)
  have d32 : F64.round (3 / 2) = FVal.fin (3 / 2) := by
    simpa using F64.round_half_int_double 3 (by norm_num)
  have dl : F64.round (16777213 / 2) = FVal.fin (16777213 / 2) := by
    simpa using F64.round_half_int_double 16777213 (by norm_num)
  have dr : F64.round (16777219 / 2) = FVal.fin (16777219 / 2) := by
    simpa using F64.round_half_int_double 16777219 (by norm_num)
  have s1 : F32.round 1 = FVal.fin 1 := by simpa using F32.round_int 1 (by norm_num)
  have sm1 : F32.round (-1) = FVal.fin (-1) := by simpa using F32.round_int (-1) (by norm_num)
  have s2 : F32.round 2 = FVal.fin 2 := by simpa using F32.round_int 2 (by norm_num)
  have s5 : F32.round 5 = FVal.fin 5 := by simpa using F32.round_int 5 (by norm_num)
  have s6 : F32.round 6 = FVal.fin 6 := by simpa using F32.round_int 6 (by norm_num)
  have s7 : F32.round 7 = FVal.fin 7 := by simpa using F32.round_int 7 (by norm_num)
  have s12 : F32.round 12 = FVal.fin 12 := by simpa using F32.round_int 12 (by norm_num)
  have sl : F32.round (16777213 / 2) = FVal.fin (16777213 / 2) := by
    simpa using F32.round_half_int 16777213 (by norm_num)
  have s72 : F32.round (7 / 2) = FVal.fin (7 / 2) := by
    simpa using F32.round_half_int 7 (by norm_num)
  have hl : IOU_f32.left ⟨8388608, 0, 3, 2, 1/2, 0⟩ ⟨8388608, 0, 3, 2, 1/2, 0⟩ =
      FVal.fin (16777213 / 2) := by
    norm_num [IOU_f32.left, Format.sub_fin, Format.div_fin, FVal.max_fin, FVal.toF32_fin,
      d32, dl, sl]
  have hr : IOU_f32.right ⟨8388608, 0, 3, 2, 1/2, 0⟩ ⟨8388608, 0, 3, 2, 1/2, 0⟩ =
      FVal.fin 8388610 := by
    norm_num [IOU_f32.right, Format.add_fin, Format.div_fin, FVal.min_fin, FVal.toF32_fin,
      d32, dr, F32.round_8388609_5]
  have ht : IOU_f32.top ⟨8388608, 0, 3, 2, 1/2, 0⟩ ⟨8388608, 0, 3, 2, 1/2, 0⟩ =
      FVal.fin (-1) := by
    norm_num [IOU_f32.top, Format.sub_fin, Format.div_fin, FVal.max_fin, FVal.toF32_fin,
      d1, dm1, sm1]
  have hb : IOU_f32.bottom ⟨8388608, 0, 3, 2, 1/2, 0⟩ ⟨8388608, 0, 3, 2, 1/2, 0⟩ =
      FVal.fin 1 := by
    norm_num [IOU_f32.bottom, Format.add_fin, Format.div_fin, FVal.min_fin, FVal.toF32_fin,
      d1, s1]
  have hi : IOU_f32.inter_box_s ⟨8388608, 0, 3, 2, 1/2, 0⟩ ⟨8388608, 0, 3, 2, 1/2, 0⟩ =
      FVal.fin 7 := by
    rw [IOU_f32.inter_box_s, hl, hr, ht, hb]
    norm_num [Format.sub_fin, Format.mul_fin, s72, s2, s7]
  have hd : IOU_f32.denominator ⟨8388608, 0, 3, 2, 1/2, 0⟩ ⟨8388608, 0, 3, 2, 1/2, 0⟩ =
      FVal.fin 5 := by
    rw [IOU_f32.denominator, hi]
    norm_num [Format.sub_fin, Format.mul_fin, Format.add_fin, s6, s12, s5]
  refine ⟨hl, hr, hi, hd, ?_⟩
  rw [IOU_f32_eq, IOU_f32.earlyReturn, hl, hr, ht, hb, hi, hd]
  norm_num [FVal.gt_fin, Format.div_fin, F32.round_7_div_5]

/-- The box (16777218, 0, 2, 2) against itself: the edges 16777217 and
16777219 are narrowed to 16777216 and 16777220, so the intersection has area
4 * 2 = 8, the denominator is 4 + 4 - 8 = 0, and the program divides 8 by 0. -/
theorem IOU_f32_at_16777218 :
    IOU_f32.left ⟨16777218, 0, 2, 2, 1/2, 0⟩ ⟨16777218, 0, 2, 2, 1/2, 0⟩ = FVal.fin 16777216 ∧
    IOU_f32.right ⟨16777218, 0, 2, 2, 1/2, 0⟩ ⟨16777218, 0, 2, 2, 1/2, 0⟩ = FVal.fin 16777220 ∧
    IOU_f32.inter_box_s ⟨16777218, 0, 2, 2, 1/2, 0⟩ ⟨16777218, 0, 2, 2, 1/2, 0⟩ = FVal.fin 8 ∧
    IOU_f32.denominator ⟨16777218, 0, 2, 2, 1/2, 0⟩ ⟨16777218, 0, 2, 2, 1/2, 0⟩ = FVal.fin 0 ∧
    IOU_f32.earlyReturn ⟨16777218, 0, 2, 2, 1/2, 0⟩ ⟨16777218, 0, 2, 2, 1/2, 0⟩ = false ∧
    IOU_f32 ⟨16777218, 0, 2, 2, 1/2, 0⟩ ⟨16777218, 0, 2, 2, 1/2, 0⟩ = FVal.posInf := by
  have d1 : F64.round 1 = FVal.fin 1 := by simpa using F64.round_int_double 1 (by norm_num)
  have dm1 : F64.round (-1) = FVal.fin (-1) := by simpa using F64.round_int_double (-1) (by norm_num)
  have dl : F64.round 16777217 = FVal.fin 16777217 := by
    simpa using F64.round_int_double 16777217 (by norm_num)
  have dr : F64.round 16777219 = FVal.fin 16777219 := by
    simpa using F64.round_int_double 16777219 (by norm_num)
  have s0 : F32.round 0 = FVal.fin 0 := F32.round_zero
  have s1 : F32.round 1 = FVal.fin 1 := F32.round_one
  have sm1 : F32.round (-1) = FVal.fin (-1) := by simpa using F32.round_int (-1) (by norm_num)
  have s2 : F32.round 2 = FVal.fin 2 := by simpa using F32.round_int 2 (by norm_num)
  have s4 : F32.round 4 = FVal.fin 4 := by simpa using F32.round_int 4 (by norm_num)
  have s8 : F32.round 8 = FVal.fin 8 := by simpa using F32.round_int 8 (by norm_num)
  have hl : IOU_f32.left ⟨16777218, 0, 2, 2, 1/2, 0⟩ ⟨16777218, 0, 2, 2, 1/2, 0⟩ =
      FVal.fin 16777216 := by
    norm_num [IOU_f32.left, Format.sub_fin, Format.div_fin, FVal.max_fin, FVal.toF32_fin,
      d1, dl, F32.round_16777217]
  have hr : IOU_f32.right ⟨16777218, 0, 2, 2, 1/2, 0⟩ ⟨16777218, 0, 2, 2, 1/2, 0⟩ =
      FVal.fin 16777220 := by
    norm_num [IOU_f32.right, Format.add_fin, Format.div_fin, FVal.min_fin, FVal.toF32_fin,
      d1, dr, F32.round_16777219]
  have ht : IOU_f32.top ⟨16777218, 0, 2, 2, 1/2, 0⟩ ⟨16777218, 0, 2, 2, 1/2, 0⟩ =
      FVal.fin (-1) := by
    norm_num [IOU_f32.top, Format.sub_fin, Format.div_fin, FVal.max_fin, FVal.toF32_fin,
      d1, dm1, sm1]
  have hb : IOU_f32.bottom ⟨16777218, 0, 2, 2, 1/2, 0⟩ ⟨16777218, 0, 2, 2, 1/2, 0⟩ =
      FVal.fin 1 := by
    norm_num [IOU_f32.bottom, Format.add_fin, Format.div_fin, FVal.min_fin, FVal.toF32_fin,
      d1, s1]
  have hi : IOU_f32.inter_box_s ⟨16777218, 0, 2, 2, 1/2, 0⟩ ⟨16777218, 0, 2, 2, 1/2, 0⟩ =
      FVal.fin 8 := by
    rw [IOU_f32.inter_box_s, hl, hr, ht, hb]
    norm_num [Format.sub_fin, Format.mul_fin, s4, s2, s8]
  have hd : IOU_f32.denominator ⟨16777218, 0, 2, 2, 1/2, 0⟩ ⟨16777218, 0, 2, 2, 1/2, 0⟩ =
      FVal.fin 0 := by
    rw [IOU_f32.denominator, hi]
    norm_num [Format.sub_fin, Format.mul_fin, Format.add_fin, s4, s8, s0]
  have he : IOU_f32.earlyReturn ⟨16777218, 0, 2, 2, 1/2, 0⟩ ⟨16777218, 0, 2, 2, 1/2, 0⟩ =
      false := by
    rw [IOU_f32.earlyReturn, hl, hr, ht, hb]
    norm_num [FVal.gt_fin]
  refine ⟨hl, hr, hi, hd, he, ?_⟩
  rw [IOU_f32_eq, he, hi, hd]
  norm_num [Format.div]

/-- The box (1, 1, 0, 0) against itself: the early return is not taken, the
denominator is 0 + 0 - 0 = 0, and the program divides 0 by 0. -/
theorem IOU_f32_at_zero_size :
    IOU_f32.earlyReturn ⟨1, 1, 0, 0, 1/2, 0⟩ ⟨1, 1, 0, 0, 1/2, 0⟩ = false ∧
    IOU_f32.inter_box_s ⟨1, 1, 0, 0, 1/2, 0⟩ ⟨1, 1, 0, 0, 1/2, 0⟩ = FVal.fin 0 ∧
    IOU_f32.denominator ⟨1, 1, 0, 0, 1/2, 0⟩ ⟨1, 1, 0, 0, 1/2, 0⟩ = FVal.fin 0 ∧
    IOU_f32 ⟨1, 1, 0, 0, 1/2, 0⟩ ⟨1, 1, 0, 0, 1/2, 0⟩ = FVal.nan := by
  have d0 : F64.round 0 = FVal.fin 0 := by simpa using F64.round_int_double 0 (by norm_num)
  have d1 : F64.round 1 = FVal.fin 1 := by simpa using F64.round_int_double 1 (by norm_num)
  have s0 : F32.round 0 = FVal.fin 0 := F32.round_zero
  have s1 : F32.round 1 = FVal.fin 1 := F32.round_one
  have hl : IOU_f32.left ⟨1, 1, 0, 0, 1/2, 0⟩ ⟨1, 1, 0, 0, 1/2, 0⟩ = FVal.fin 1 := by
    norm_num [IOU_f32.left, Format.sub_fin, Format.div_fin, FVal.max_fin, FVal.toF32_fin,
      d0, d1, s1]
  have hr : IOU_f32.right ⟨1, 1, 0, 0, 1/2, 0⟩ ⟨1, 1, 0, 0, 1/2, 0⟩ = FVal.fin 1 := by
    norm_num [IOU_f32.right, Format.add_fin, Format.div_fin, FVal.min_fin, FVal.toF32_fin,
      d0, d1, s1]
  have ht : IOU_f32.top ⟨1, 1, 0, 0, 1/2, 0⟩ ⟨1, 1, 0, 0, 1/2, 0⟩ = FVal.fin 1 := by
    norm_num [IOU_f32.top, Format.sub_fin, Format.div_fin, FVal.max_fin, FVal.toF32_fin,
      d0, d1, s1]
  have hb : IOU_f32.bottom ⟨1, 1, 0, 0, 1/2, 0⟩ ⟨1, 1, 0, 0, 1/2, 0⟩ = FVal.fin 1 := by
    norm_num [IOU_f32.bottom, Format.add_fin, Format.div_fin, FVal.min_fin, FVal.toF32_fin,
      d0, d1, s1]
  have hi : IOU_f32.inter_box_s ⟨1, 1, 0, 0, 1/2, 0⟩ ⟨1, 1, 0, 0, 1/2, 0⟩ = FVal.fin 0 := by
    rw [IOU_f32.inter_box_s, hl, hr, ht, hb]
    norm_num [Format.sub_fin, Format.mul_fin, s0]
  have hd : IOU_f32.denominator ⟨1, 1, 0, 0, 1/2, 0⟩ ⟨1, 1, 0, 0, 1/2, 0⟩ = FVal.fin 0 := by
    rw [IOU_f32.denominator, hi]
    norm_num [Format.sub_fin, Format.mul_fin, Format.add_fin, s0]
  have he : IOU_f32.earlyReturn ⟨1, 1, 0, 0, 1/2, 0⟩ ⟨1, 1, 0, 0, 1/2, 0⟩ = false := by
    rw [IOU_f32.earlyReturn, hl, hr, ht, hb]
    norm_num [FVal.gt_fin]
  refine ⟨he, hi, hd, ?_⟩
  rw [IOU_f32_eq, he, hi, hd]
  norm_num [Format.div]

/-- The boxes (0, 0, 2, 2) and (2, 0, 2, 2) touch along the line x = 1: the
program computes `right = left = 1` and returns 0. -/
theorem IOU_f32_at_touching_pair :
    IOU_f32.right ⟨0, 0, 2, 2, 1/4, 0⟩ ⟨2, 0, 2, 2, 3/4, 0⟩ = FVal.fin 1 ∧
    IOU_f32.left ⟨0, 0, 2, 2, 1/4, 0⟩ ⟨2, 0, 2, 2, 3/4, 0⟩ = FVal.fin 1 ∧
    IOU_f32 ⟨0, 0, 2, 2, 1/4, 0⟩ ⟨2, 0, 2, 2, 3/4, 0⟩ = FVal.fin 0 := by
  have d1 : F64.round 1 = FVal.fin 1 := by simpa using F64.round_int_double 1 (by norm_num)
  have d3 : F64.round 3 = FVal.fin 3 := by simpa using F64.round_int_double 3 (by norm_num)
  have dm1 : F64.round (-1) = FVal.fin (-1) := by simpa using F64.round_int_double (-1) (by norm_num)
  have s0 : F32.round 0 = FVal.fin 0 := F32.round_zero
  have s1 : F32.round 1 = FVal.fin 1 := F32.round_one
  have sm1 : F32.round (-1) = FVal.fin (-1) := by simpa using F32.round_int (-1) (by norm_num)
  have s2 : F32.round 2 = FVal.fin 2 := by simpa using F32.round_int 2 (by norm_num)
  have s4 : F32.round 4 = FVal.fin 4 := by simpa using F32.round_int 4 (by norm_num)
  have s8 : F32.round 8 = FVal.fin 8 := by simpa using F32.round_int 8 (by norm_num)
  have hl : IOU_f32.left ⟨0, 0, 2, 2, 1/4, 0⟩ ⟨2, 0, 2, 2, 3/4, 0⟩ = FVal.fin 1 := by
    norm_num [IOU_f32.left, Format.sub_fin, Format.div_fin, FVal.max_fin, FVal.toF32_fin,
      d1, dm1, s1]
  have hr : IOU_f32.right ⟨0, 0, 2, 2, 1/4, 0⟩ ⟨2, 0, 2, 2, 3/4, 0⟩ = FVal.fin 1 := by
    norm_num [IOU_f32.right, Format.add_fin, Format.div_fin, FVal.min_fin, FVal.toF32_fin,
      d1, d3, s1]
  have ht : IOU_f32.top ⟨0, 0, 2, 2, 1/4, 0⟩ ⟨2, 0, 2, 2, 3/4, 0⟩ = FVal.fin (-1) := by
    norm_num [IOU_f32.top, Format.sub_fin, Format.div_fin, FVal.max_fin, FVal.toF32_fin,
      d1, dm1, sm1]
  have hb : IOU_f32.bottom ⟨0, 0, 2, 2, 1/4, 0⟩ ⟨2, 0, 2, 2, 3/4, 0⟩ = FVal.fin 1 := by
    norm_num [IOU_f32.bottom, Format.add_fin, Format.div_fin, FVal.min_fin, FVal.toF32_fin,
      d1, s1]
  have hi : IOU_f32.inter_box_s ⟨0, 0, 2, 2, 1/4, 0⟩ ⟨2, 0, 2, 2, 3/4, 0⟩ = FVal.fin 0 := by
    rw [IOU_f32.inter_box_s, hl, hr, ht, hb]
    norm_num [Format.sub_fin, Format.mul_fin, s0, s2]
  have hd : IOU_f32.denominator ⟨0, 0, 2, 2, 1/4, 0⟩ ⟨2, 0, 2, 2, 3/4, 0⟩ = FVal.fin 8 := by
    rw [IOU_f32.denominator, hi]
    norm_num [Format.sub_fin, Format.mul_fin, Format.add_fin, s4, s8]
  refine ⟨hr, hl, ?_⟩
  rw [IOU_f32_eq, IOU_f32.earlyReturn, hl, hr, ht, hb, hi, hd]
  norm_num [FVal.gt_fin, Format.div_fin, s0]

/-- The box (0, 0, 2, 2) against itself: every intermediate value of `IOU` is
a small integer and is computed without rounding error. -/
theorem IOU_f32.exact_same_box :
    IOU_f32.Exact ⟨0, 0, 2, 2, 1/2, 0⟩ ⟨0, 0, 2, 2, 3/4, 0⟩ := by
  have d1 : F64.round 1 = FVal.fin 1 := by simpa using F64.round_int_double 1 (by norm_num)
  have dm1 : F64.round (-1) = FVal.fin (-1) := by simpa using F64.round_int_double (-1) (by norm_num)
  have s1 : F32.round 1 = FVal.fin 1 := F32.round_one
  have sm1 : F32.round (-1) = FVal.fin (-1) := by simpa using F32.round_int (-1) (by norm_num)
  have s2 : F32.round 2 = FVal.fin 2 := by simpa using F32.round_int 2 (by norm_num)
  have s4 : F32.round 4 = FVal.fin 4 := by simpa using F32.round_int 4 (by norm_num)
  have s8 : F32.round 8 = FVal.fin 8 := by simpa using F32.round_int 8 (by norm_num)
  have hl : IOU_f32.left ⟨0, 0, 2, 2, 1/2, 0⟩ ⟨0, 0, 2, 2, 3/4, 0⟩ = FVal.fin (-1) := by
    norm_num [IOU_f32.left, Format.sub_fin, Format.div_fin, FVal.max_fin, FVal.toF32_fin,
      d1, dm1, sm1]
  have hr : IOU_f32.right ⟨0, 0, 2, 2, 1/2, 0⟩ ⟨0, 0, 2, 2, 3/4, 0⟩ = FVal.fin 1 := by
    norm_num [IOU_f32.right, Format.add_fin, Format.div_fin, FVal.min_fin, FVal.toF32_fin,
      d1, s1]
  have ht : IOU_f32.top ⟨0, 0, 2, 2, 1/2, 0⟩ ⟨0, 0, 2, 2, 3/4, 0⟩ = FVal.fin (-1) := by
    norm_num [IOU_f32.top, Format.sub_fin, Format.div_fin, FVal.max_fin, FVal.toF32_fin,
      d1, dm1, sm1]
  have hb : IOU_f32.bottom ⟨0, 0, 2, 2, 1/2, 0⟩ ⟨0, 0, 2, 2, 3/4, 0⟩ = FVal.fin 1 := by
    norm_num [IOU_f32.bottom, Format.add_fin, Format.div_fin, FVal.min_fin, FVal.toF32_fin,
      d1, s1]
  have hi : IOU_f32.inter_box_s ⟨0, 0, 2, 2, 1/2, 0⟩ ⟨0, 0, 2, 2, 3/4, 0⟩ = FVal.fin 4 := by
    rw [IOU_f32.inter_box_s, hl, hr, ht, hb]
    norm_num [Format.sub_fin, Format.mul_fin, s2, s4]
  have hd : IOU_f32.denominator ⟨0, 0, 2, 2, 1/2, 0⟩ ⟨0, 0, 2, 2, 3/4, 0⟩ = FVal.fin 4 := by
    rw [IOU_f32.denominator, hi]
    norm_num [Format.sub_fin, Format.mul_fin, Format.add_fin, s4, s8]
  refine ⟨?_, ?_, ?_, ?_, fun _ => ⟨?_, ?_⟩⟩
  · rw [hl]; norm_num [IOU.left]
  · rw [hr]; norm_num [IOU.right]
  · rw [ht]; norm_num [IOU.top]
  · rw [hb]; norm_num [IOU.bottom]
  · rw [hi]; norm_num [IOU.inter_box_s, IOU.left, IOU.right, IOU.top, IOU.bottom]
  · rw [hd]
    norm_num [IOU.denominator, IOU.inter_box_s, IOU.left, IOU.right, IOU.top, IOU.bottom]

/-- Two touching boxes of width and height `2 ^ -76`: both areas underflow
to 0 in `float`, the denominator is 0 and the program divides 0 by 0. -/
theorem IOU_f32_at_tiny_touching_pair :
    IOU_f32.right ⟨0, 0, 2 ^ (-76 : ℤ), 2 ^ (-76 : ℤ), 1/4, 0⟩
        ⟨2 ^ (-76 : ℤ), 0, 2 ^ (-76 : ℤ), 2 ^ (-76 : ℤ), 3/4, 0⟩ =
      IOU_f32.left ⟨0, 0, 2 ^ (-76 : ℤ), 2 ^ (-76 : ℤ), 1/4, 0⟩
        ⟨2 ^ (-76 : ℤ), 0, 2 ^ (-76 : ℤ), 2 ^ (-76 : ℤ), 3/4, 0⟩ ∧
    IOU_f32 ⟨0, 0, 2 ^ (-76 : ℤ), 2 ^ (-76 : ℤ), 1/4, 0⟩
        ⟨2 ^ (-76 : ℤ), 0, 2 ^ (-76 : ℤ), 2 ^ (-76 : ℤ), 3/4, 0⟩ = FVal.nan := by
  have s0 : F32.round 0 = FVal.fin 0 := F32.round_zero
  have d0 : F64.round 0 = FVal.fin 0 := by simpa using F64.round_int_double 0 (by norm_num)
  have dh : F64.round (2 ^ (-77 : ℤ)) = FVal.fin (2 ^ (-77 : ℤ)) :=
    F64.round_exact _ 1 (-77) (by norm_num) (by norm_num [F64]) (by norm_num [F64])
      (by norm_num [F64, abs_of_pos])
  have dmh : F64.round (-2 ^ (-77 : ℤ)) = FVal.fin (-2 ^ (-77 : ℤ)) :=
    F64.round_exact _ (-1) (-77) (by norm_num) (by norm_num [F64]) (by norm_num [F64])
      (by norm_num [F64, abs_of_pos])
  have d3h : F64.round (3 * 2 ^ (-77 : ℤ)) = FVal.fin (3 * 2 ^ (-77 : ℤ)) :=
    F64.round_exact _ 3 (-77) (by norm_num) (by norm_num [F64]) (by norm_num [F64])
      (by norm_num [F64, abs_of_pos])
  have sh : F32.round (2 ^ (-77 : ℤ)) = FVal.fin (2 ^ (-77 : ℤ)) :=
    F32.round_exact _ 1 (-77) (by norm_num) (by norm_num [F32]) (by norm_num [F32])
      (by norm_num [F32, abs_of_pos])
  have smh : F32.round (-2 ^ (-77 : ℤ)) = FVal.fin (-2 ^ (-77 : ℤ)) :=
    F32.round_exact _ (-1) (-77) (by norm_num) (by norm_num [F32]) (by norm_num [F32])
      (by norm_num [F32, abs_of_pos])
  have sw : F32.round (2 ^ (-76 : ℤ)) = FVal.fin (2 ^ (-76 : ℤ)) :=
    F32.round_exact _ 1 (-76) (by norm_num) (by norm_num [F32]) (by norm_num [F32])
      (by norm_num [F32, abs_of_pos])
  have su := F32.round_underflow
  norm_num at dh dmh d3h sh smh sw su
  have hl : IOU_f32.left ⟨0, 0, 2 ^ (-76 : ℤ), 2 ^ (-76 : ℤ), 1/4, 0⟩
      ⟨2 ^ (-76 : ℤ), 0, 2 ^ (-76 : ℤ), 2 ^ (-76 : ℤ), 3/4, 0⟩ = FVal.fin (2 ^ (-77 : ℤ)) := by
    norm_num [IOU_f32.left, Format.sub_fin, Format.div_fin, FVal.max_fin, FVal.toF32_fin,
      dh, dmh, sh]
  have hr : IOU_f32.right ⟨0, 0, 2 ^ (-76 : ℤ), 2 ^ (-76 : ℤ), 1/4, 0⟩
      ⟨2 ^ (-76 : ℤ), 0, 2 ^ (-76 : ℤ), 2 ^ (-76 : ℤ), 3/4, 0⟩ = FVal.fin (2 ^ (-77 : ℤ)) := by
    norm_num [IOU_f32.right, Format.add_fin, Format.div_fin, FVal.min_fin, FVal.toF32_fin,
      dh, d3h, sh]
  have ht : IOU_f32.top ⟨0, 0, 2 ^ (-76 : ℤ), 2 ^ (-76 : ℤ), 1/4, 0⟩
      ⟨2 ^ (-76 : ℤ), 0, 2 ^ (-76 : ℤ), 2 ^ (-76 : ℤ), 3/4, 0⟩ = FVal.fin (-2 ^ (-77 : ℤ)) := by
    norm_num [IOU_f32.top, Format.sub_fin, Format.div_fin, FVal.max_fin, FVal.toF32_fin,
      dh, dmh, smh]
  have hb : IOU_f32.bottom ⟨0, 0, 2 ^ (-76 : ℤ), 2 ^ (-76 : ℤ), 1/4, 0⟩
      ⟨2 ^ (-76 : ℤ), 0, 2 ^ (-76 : ℤ), 2 ^ (-76 : ℤ), 3/4, 0⟩ = FVal.fin (2 ^ (-77 : ℤ)) := by
    norm_num [IOU_f32.bottom, Format.add_fin, Format.div_fin, FVal.min_fin, FVal.toF32_fin,
      dh, sh]
  have hi : IOU_f32.inter_box_s ⟨0, 0, 2 ^ (-76 : ℤ), 2 ^ (-76 : ℤ), 1/4, 0⟩
      ⟨2 ^ (-76 : ℤ), 0, 2 ^ (-76 : ℤ), 2 ^ (-76 : ℤ), 3/4, 0⟩ = FVal.fin 0 := by
    rw [IOU_f32.inter_box_s, hl, hr, ht, hb]
    norm_num [Format.sub_fin, Format.mul_fin, s0, sw]
  have hd : IOU_f32.denominator ⟨0, 0, 2 ^ (-76 : ℤ), 2 ^ (-76 : ℤ), 1/4, 0⟩
      ⟨2 ^ (-76 : ℤ), 0, 2 ^ (-76 : ℤ), 2 ^ (-76 : ℤ), 3/4, 0⟩ = FVal.fin 0 := by
    rw [IOU_f32.denominator, hi]
    norm_num [Format.sub_fin, Format.mul_fin, Format.add_fin, s0, su]
  refine ⟨by rw [hl, hr], ?_⟩
  rw [IOU_f32_eq, IOU_f32.earlyReturn, hl, hr, ht, hb, hi, hd]
  norm_num [FVal.gt_fin, Format.div]

/-! ## The claims -/

/-- C1 (defect of the code).  The removal pass is meant to remove every
remaining detection whose IoU with the taken one exceeds the threshold, but
after `dets.erase(it)` the loop still runs `++it` and steps over the element
that moved into the erased slot.  On three detections with the same box and
confidences 0.1, 0.2, 0.3 at threshold 0.5 the call returns the third and
the second, whose IoU is 1 > 0.5; only the first was compared and erased. -/
theorem NonMaxSuppression_leaves_suppressible_detection :
    NonMaxSuppression
        [⟨0, 0, 2, 2, 1/10, 0⟩, ⟨0, 0, 2, 2, 2/10, 0⟩, ⟨0, 0, 2, 2, 3/10, 0⟩] (1/2) =
      some [⟨0, 0, 2, 2, 3/10, 0⟩, ⟨0, 0, 2, 2, 2/10, 0⟩] ∧
    IOU ⟨0, 0, 2, 2, 3/10, 0⟩ ⟨0, 0, 2, 2, 2/10, 0⟩ > 1/2 ∧
    (NonMaxSuppressionRun
        [⟨0, 0, 2, 2, 1/10, 0⟩, ⟨0, 0, 2, 2, 2/10, 0⟩, ⟨0, 0, 2, 2, 3/10, 0⟩] (1/2)).suppressed =
      [(⟨0, 0, 2, 2, 3/10, 0⟩, ⟨0, 0, 2, 2, 1/10, 0⟩)] := by
  refine ⟨?_, ?_, ?_⟩
  · unfold NonMaxSuppression
    rw [NonMaxSuppressionRun_three_same]
  · rw [IOU_same_box ⟨0, 0, 2, 2, 3/10, 0⟩ ⟨0, 0, 2, 2, 2/10, 0⟩ rfl rfl rfl rfl
      (by norm_num) (by norm_num)]
    norm_num
  · rw [NonMaxSuppressionRun_three_same]

/-- C2 (defect of the code).  The confidence is meant to be objectness times
the greatest class score, but the range given to `std::max_element` starts
at the objectness (`it + 4`) instead of the first class score (`it + 5`).
On the single row (100, 100, 20, 20, 0.9, 0.8) with threshold 0.5 the decoder
emits confidence 0.9 * 0.9 = 0.81, not 0.9 * 0.8 = 0.72, and
`NonMaxSuppression` returns that one detection unchanged. -/
theorem PostProcess_confidence_takes_objectness_as_score :
    TrtDetector.PostProcess 6 (1/2) [100, 100, 20, 20, 9/10, 8/10] =
      some [⟨100, 100, 20, 20, 81/100, 0⟩] ∧
    NonMaxSuppression [⟨100, 100, 20, 20, 81/100, 0⟩] (1/2) =
      some [⟨100, 100, 20, 20, 81/100, 0⟩] ∧
    (81 : ℚ)/100 ≠ 9/10 * (8/10) := by
  refine ⟨?_, ?_, by norm_num⟩
  · have h := TrtDetector.PostProcess_rows 1 (1/2) [[100, 100, 20, 20, 9/10, 8/10]] (by simp)
    simp only [List.flatten_cons, List.flatten_nil, List.append_nil] at h
    rw [show (6 : Nat) = 5 + 1 from rfl, h]
    norm_num [TrtDetector.PostProcess.decode, max_element, max_element.loop]
  · have p : eraseLoop ⟨100, 100, 20, 20, 81/100, 0⟩ (1/2) 1 0 [] [] =
        ⟨[], [], Status.finished⟩ := by
      rw [eraseLoop_unfold _ _ _ _ _ _ (by decide)]
      simp
    unfold NonMaxSuppression NonMaxSuppressionRun
    rw [if_neg (by simp)]
    simp only [sortByConf, List.insertionSort, List.orderedInsert, List.length_cons,
      List.length_nil]
    rw [whileLoop_unfold _ _ _ _ _ (by simp)]
    simp only [List.getLast?_singleton, List.dropLast_single, List.length_nil, p]
    rw [whileLoop_unfold _ _ _ _ _ (by simp)]
    simp

/-- C3 (defect of the code).  `class_id` is meant to be the arg-max index
over the class scores, a value in `0..C-1`, but it is the distance from
`it + 4`, the objectness, so it is one more than the class index whenever a
class score exceeds the objectness.  On the row (0, 0, 1, 1, 0.5, 0.2, 0.9)
with two classes and threshold 0.1 the emitted `class_id` is 2; the
arg-max of the class scores (0.2, 0.9) is 1. -/
theorem PostProcess_class_id_counts_from_objectness :
    TrtDetector.PostProcess 7 (1/10) [0, 0, 1, 1, 1/2, 1/5, 9/10] =
      some [⟨0, 0, 1, 1, 9/20, 2⟩] ∧
    max_element [1/5, 9/10] = 1 := by
  refine ⟨?_, ?_⟩
  · have h := TrtDetector.PostProcess_rows 2 (1/10) [[0, 0, 1, 1, 1/2, 1/5, 9/10]] (by simp)
    simp only [List.flatten_cons, List.flatten_nil, List.append_nil] at h
    rw [show (7 : Nat) = 5 + 2 from rfl, h]
    norm_num [TrtDetector.PostProcess.decode, max_element, max_element.loop]
  · simp [max_element, max_element.loop]
    norm_num

/-- C4.  On a buffer made of rows of length `5 + C`, `PostProcess` returns
one detection for exactly the rows whose objectness (index 4) is strictly
greater than the threshold, in buffer order, with `x_ctr, y_ctr, w, h` copied
from indices 0..3 of the row.  Nothing else filters the output: a row with
objectness at most the threshold never appears, and no threshold is applied
to the confidence. -/
theorem PostProcess_emits_rows_above_threshold (C : Nat) (conf_thresh : ℚ) (rows : List (List ℚ))
    (hrows : ∀ r ∈ rows, r.length = 5 + C) :
    ∃ dets, TrtDetector.PostProcess (5 + C) conf_thresh rows.flatten = some dets ∧
      dets.map (fun d => [d.x_ctr, d.y_ctr, d.w, d.h]) =
        (rows.filter (fun r => decide (r.getD 4 0 > conf_thresh))).map (fun r => r.take 4) := by
  refine ⟨_, TrtDetector.PostProcess_rows C conf_thresh rows hrows, ?_⟩
  rw [List.map_map]
  apply List.map_congr_left
  intro r hr
  obtain ⟨x, y, w, h, obj, cls, rfl, _⟩ := row_shape C r (hrows r (List.mem_of_mem_filter hr))
  rfl

theorem PostProcess_emits_rows_above_threshold_witness :
    (∀ r ∈ [[0, 0, 1, 1, 1/2, 1/5, 9/10], [3, 3, 1, 1, 1/20, 1, (1 : ℚ)]], r.length = 5 + 2) ∧
    ∃ dets, TrtDetector.PostProcess (5 + 2) (1/10)
        [[0, 0, 1, 1, 1/2, 1/5, 9/10], [3, 3, 1, 1, 1/20, 1, (1 : ℚ)]].flatten = some dets ∧
      dets.map (fun d => [d.x_ctr, d.y_ctr, d.w, d.h]) =
        ([[0, 0, 1, 1, 1/2, 1/5, 9/10], [3, 3, 1, 1, 1/20, 1, (1 : ℚ)]].filter
          (fun r => decide (r.getD 4 0 > 1/10))).map (fun r => r.take 4) :=
  ⟨by simp, PostProcess_emits_rows_above_threshold 2 (1/10)
    [[0, 0, 1, 1, 1/2, 1/5, 9/10], [3, 3, 1, 1, 1/20, 1, 1]] (by simp)⟩

/-- C5 (defect of the code).  Two detections with the same box (IoU 1) and
confidences 0.5 and 0.9 at threshold 0.5 should leave the one of confidence
0.9.  The inner loop erases the other one, which is the last element of the
working vector, and `++it` then moves the iterator past `end()`: the loop
test `it != dets.end()` still holds and `*it` is read outside the vector, so
the call has no defined result. -/
theorem NonMaxSuppression_same_box_pair_reads_past_end :
    IOU ⟨0, 0, 2, 2, 1/2, 0⟩ ⟨0, 0, 2, 2, 9/10, 0⟩ = 1 ∧
    NonMaxSuppression [⟨0, 0, 2, 2, 1/2, 0⟩, ⟨0, 0, 2, 2, 9/10, 0⟩] (1/2) = none ∧
    (NonMaxSuppressionRun [⟨0, 0, 2, 2, 1/2, 0⟩, ⟨0, 0, 2, 2, 9/10, 0⟩] (1/2)).status =
      Status.pastEnd ∧
    (NonMaxSuppressionRun [⟨0, 0, 2, 2, 1/2, 0⟩, ⟨0, 0, 2, 2, 9/10, 0⟩] (1/2)).suppressed =
      [(⟨0, 0, 2, 2, 9/10, 0⟩, ⟨0, 0, 2, 2, 1/2, 0⟩)] := by
  have e : IOU ⟨0, 0, 2, 2, 1/2, 0⟩ ⟨0, 0, 2, 2, 9/10, 0⟩ = 1 :=
    IOU_same_box ⟨0, 0, 2, 2, 1/2, 0⟩ ⟨0, 0, 2, 2, 9/10, 0⟩ rfl rfl rfl rfl
      (by norm_num) (by norm_num)
  have h := NonMaxSuppression_pair_erase ⟨0, 0, 2, 2, 1/2, 0⟩ ⟨0, 0, 2, 2, 9/10, 0⟩ (1/2)
    (by rw [e]; norm_num)
  refine ⟨e, h.1, h.2.1, ?_⟩
  rw [h.2.2, if_pos (by norm_num)]

/-- C11 (defect of the code).  On a frame in which nothing is found `Detect`
should return an empty sequence, as `GuidingLightDetector::Detect` does
(`GuidingLightDetector.Detect_targets`).  `SnipeDetector::FindArmor` is an
unfinished stub (`TODO :Realize`): it does not read the frame and always
ends with `targets_.emplace_back(Armor())`, so on an empty frame, with no
previous targets, `SnipeDetector::Detect` returns one default-constructed
armor and not the empty sequence. -/
theorem SnipeDetector_Detect_returns_one_target :
    (SnipeDetector.Detect (⟨⟨0, 0⟩, 0, game.Model.kUNKNOWN⟩ : Armor) ⟨[]⟩ ([] : List ℚ)).2 =
      [⟨⟨0, 0⟩, 0, game.Model.kUNKNOWN⟩] ∧
    (SnipeDetector.Detect (⟨⟨0, 0⟩, 0, game.Model.kUNKNOWN⟩ : Armor) ⟨[]⟩ ([] : List ℚ)).2 ≠
      [] := by
  constructor
  · rfl
  · intro h
    cases h

/-- C12.  For every pair of light bars, `Armor(left, right)` has its centre
at the midpoint of the two light-bar centres and its angle at the arithmetic
mean of the two light-bar angles, its model is UNKNOWN right after
construction, and after `SetModel(m)` the accessor `GetModel()` returns `m`
while centre and angle are unchanged. -/
theorem Armor_center_angle_model (left right : LightBar) (m : game.Model) :
    (Armor.ofLightBars left right).ImageCenter =
        ⟨(left.ImageCenter.x + right.ImageCenter.x) / 2,
          (left.ImageCenter.y + right.ImageCenter.y) / 2⟩ ∧
      (Armor.ofLightBars left right).ImageAngle = (left.ImageAngle + right.ImageAngle) / 2 ∧
      (Armor.ofLightBars left right).GetModel = game.Model.kUNKNOWN ∧
      ((Armor.ofLightBars left right).SetModel m).GetModel = m ∧
      ((Armor.ofLightBars left right).SetModel m).ImageCenter =
        (Armor.ofLightBars left right).ImageCenter ∧
      ((Armor.ofLightBars left right).SetModel m).ImageAngle =
        (Armor.ofLightBars left right).ImageAngle :=
  ⟨rfl, rfl, rfl, rfl, rfl, rfl⟩

theorem Armor_center_angle_model_witness : TestVision.TestArmor := by
  have h := Armor_center_angle_model ⟨⟨⟨1, 3⟩, ⟨1, 3⟩, 5⟩⟩ ⟨⟨⟨3, 1⟩, ⟨1, 3⟩, 7⟩⟩ game.Model.kHERO
  unfold TestVision.TestArmor
  simp only []
  rw [h.1, h.2.1, h.2.2.1, h.2.2.2.1]
  norm_num [LightBar.ImageCenter, LightBar.ImageAngle]

